import Mathlib

/-!
Verification of the merge/upsert synchronization core of `pick5_scraper.py`
(`blink7315/pick5-scraper`), against its natural-language specification.

Shallow embedding conventions
-- ==========================

Timestamps.  Every timestamp in the source is a timezone-aware local
`datetime` in the single configured zone (`TIMEZONE`); the code only ever
compares timestamps, takes day-of-week, truncates to midnight / to the Monday
of the week, and adds whole days or minutes.  We model a local timestamp as a
`Nat` counting minutes since an (arbitrary) reference Monday 00:00 local, so
`weekday t = t / 1440 % 7` agrees with Python's `datetime.weekday()`
(Mon = 0 .. Sun = 6) and `date t = t / 1440` is the calendar day index.
Daylight-saving anomalies are not modelled (the source re-enters the same
zone everywhere, so `astimezone` is the identity in all the modelled code).

Timestamp strings.  `strftime("%Y-%m-%d %H:%M")` / `strptime` round-trips of
cell text are modelled by rendering a timestamp as its decimal minute count
(`Nat.repr`) and parsing a cell as an all-decimal-digit string.  What the
proofs rely on is exactly what holds of the real format: a rendered
timestamp parses back, the empty cell does not parse, and a game-key string
(which always contains the separator '|') never parses as a timestamp
(Python's `strptime` fails on it).

Kickoff parsing.  `parse_kickoff_local` rejects missing fields and the
sentinels TBD / N/A / "-" / POSTPONED, requires a month-day token in the
date text and a clock token in the time text, and otherwise builds a local
timestamp.  The month-name/strptime/year-inference machinery is abstracted:
the model checks the date text for a letters-then-digits token exactly as
the source regex does, and reads the time text as a decimal model timestamp.
No claim in scope depends on the interior of the calendar computation.

Week tags.  `compute_week_tag` renders `year` and the ISO week number of the
kickoff (or of `now`).  The model renders the year as `t / 525600` and the
week number as `t / 10080`: the claims only use that the tag is a pure
function of (kickoff, now, league, phase), never its exact text.

The worksheet.  A cell is a `String`, a row is a `List String`, and the
`Lines` worksheet is its `get_all_values()` list of rows (index 0 = header
row 1).  Row/column numbers are 1-based as in A1 notation, so column L
(GameKey) is index 11 and column P (Locked) is index 15 of a row.  Deleting
a row block and batch-writing a range are list surgery; growing the grid is
implicit (absent cells read as "").

Configuration constants are embedded with the values they have in the file
(`TEST_MODE_IGNORE_LOCKS = False`, `NFL_WEEK = CFB_WEEK = None`, spacer 4);
the optional environment overrides are out of scope.
-/

namespace Pick5

/-- Minutes in a day.  (A local timestamp is a plain `Nat`: minutes since a
reference Monday 00:00 local; see the header.) -/
def minsPerDay : Nat := 1440

/-- Minutes in a week. -/
def minsPerWeek : Nat := 10080

/-- Python `dt.weekday()`: Mon = 0 .. Sun = 6. -/
def weekday (t : Nat) : Nat := t / minsPerDay % 7

/-- Python `dt.date()` as a day index. -/
def dateOf (t : Nat) : Nat := t / minsPerDay

/-- Python whitespace class `\s` (ASCII part), also what `str.strip()` removes. -/
def isWs (c : Char) : Bool :=
  c = ' ' || c = '\t' || c = '\n' || c = '\r' || c = '\x0b' || c = '\x0c'

/-- Python `str.strip()`. -/
def py_strip (s : String) : String :=
  ⟨(s.data.dropWhile isWs).reverse.dropWhile isWs |>.reverse⟩

/-- Python `str.upper()` (ASCII). -/
def py_upper (s : String) : String := ⟨s.data.map Char.toUpper⟩

/-- Python `str.lower()` (ASCII). -/
def py_lower (s : String) : String := ⟨s.data.map Char.toLower⟩

/-- Python `str.capitalize()` (ASCII). -/
def py_capitalize (s : String) : String :=
  match s.data with
  | [] => ""
  | c :: cs => ⟨c.toUpper :: cs.map Char.toLower⟩

/-- Decimal parse of a character list: the model of a successful `strptime`
of a rendered model timestamp.  Succeeds exactly on nonempty all-digit
strings, as `strptime("%Y-%m-%d %H:%M")` succeeds exactly on well-formed
timestamp text (and in particular fails on every string containing '|'). -/
def decDigits? (cs : List Char) : Option Nat :=
  if cs ≠ [] ∧ cs.all Char.isDigit then
    some (cs.foldl (fun n c => n * 10 + (c.toNat - 48)) 0)
  else none

/-- Render a model timestamp as cell text (`strftime("%Y-%m-%d %H:%M")`). -/
def fmtTime (t : Nat) : String := Nat.repr t

/-- `fmt(dt)` from `merge_staging_into_lines`: empty text for a missing
timestamp, rendered local time otherwise. -/
def fmt_opt (t : Option Nat) : String :=
  match t with
  | none => ""
  | some t => fmtTime t

/-- Is there a letters-then-whitespace-then-digit token starting right here?
Helper for the model of the source regex `([A-Za-z]+)\s+(\d{1,2})`. -/
def monthDayAt (cs : List Char) : Bool :=
  match cs with
  | [] => false
  | c :: rest =>
      c.isAlpha &&
        (match rest.dropWhile Char.isAlpha with
         | [] => false
         | w :: tail =>
             isWs w &&
               (match tail.dropWhile isWs with
                | [] => false
                | d :: _ => d.isDigit))

/-- Does the character list contain a letters-then-whitespace-then-digit
token anywhere?  Models the source regex search `([A-Za-z]+)\s+(\d{1,2})`
over the date text (only success/failure is used by the model). -/
def hasMonthDayToken : List Char → Bool
  | [] => false
  | c :: cs => monthDayAt (c :: cs) || hasMonthDayToken cs

/-- `parse_kickoff_local(date_text, time_text, tzname)` (source lines
803-831).  Missing fields and the sentinel time texts give `None`; a date
text with no month-day token or a time text with no clock token give
`None`; otherwise the kickoff timestamp.  Per the header note, the
calendar arithmetic of the success path is abstracted: the time text is
read as a decimal model timestamp. -/
def parse_kickoff_local (date_text time_text : String) : Option Nat :=
  if date_text = "" || time_text = "" ||
      (py_upper time_text = "TBD" || py_upper time_text = "N/A" ||
       py_upper time_text = "-" || py_upper time_text = "POSTPONED") then
    none
  else if hasMonthDayToken date_text.data then
    decDigits? time_text.data
  else
    none

/-- `compute_release_freeze(kickoff_dt, league, phase)` (source lines
833-845): unknown kickoff gives unknown release/freeze; otherwise truncate
to the Monday 00:00 of kickoff's week, then Thu/Fri kickoffs get
(Tue 00:01, Tue 12:00) of that week and all other weekdays get
(Thu 00:01, Thu 12:00) of that week.  `league`/`phase` are accepted and
ignored exactly as in the source. -/
def compute_release_freeze (kickoff_dt : Option Nat) (_league _phase : String) :
    Option Nat × Option Nat :=
  match kickoff_dt with
  | none => (none, none)
  | some k =>
      let dow := weekday k
      let monday := (k / minsPerDay - dow) * minsPerDay
      if dow = 3 ∨ dow = 4 then
        (some (monday + minsPerDay + 1), some (monday + minsPerDay + 720))
      else
        (some (monday + 3 * minsPerDay + 1), some (monday + 3 * minsPerDay + 720))

/-- `publish_window_allows(now_dt, kickoff_dt)` (source lines 1275-1301):
unknown kickoff always passes; on a Tuesday, pass kickoffs dated Thu-Fri of
the Monday-anchored current week; on a Thursday, pass Sat through next
Monday; otherwise pass nothing. -/
def publish_window_allows (now_dt : Nat) (kickoff_dt : Option Nat) : Bool :=
  match kickoff_dt with
  | none => true
  | some k =>
      let kdate := dateOf k
      let week_mon := dateOf now_dt - weekday now_dt
      if weekday now_dt = 1 then
        week_mon + 3 ≤ kdate && kdate ≤ week_mon + 4
      else if weekday now_dt = 3 then
        week_mon + 5 ≤ kdate && kdate ≤ week_mon + 7
      else
        false

/-- Strip a leading 1-2 digit ranking token (`re.sub(r"^\d{1,2}\s+", "", s)`):
at most two leading digits followed by at least one whitespace, the greedy
`\s+` consuming the whole whitespace run. -/
def stripLeadingRank : List Char → List Char
  | c1 :: c2 :: c3 :: rest =>
      if c1.isDigit && c2.isDigit && isWs c3 then (c3 :: rest).dropWhile isWs
      else if c1.isDigit && isWs c2 then (c2 :: c3 :: rest).dropWhile isWs
      else c1 :: c2 :: c3 :: rest
  | [c1, c2] =>
      if c1.isDigit && isWs c2 then []
      else [c1, c2]
  | cs => cs

/-- Helper for `collapseWs`: the flag records whether the previous character
was whitespace (so that a run contributes a single space). -/
def collapseWsAux : Bool → List Char → List Char
  | _, [] => []
  | prevWs, c :: cs =>
      if isWs c then
        if prevWs then collapseWsAux true cs else ' ' :: collapseWsAux true cs
      else c :: collapseWsAux false cs

/-- Collapse each whitespace run to a single space (`re.sub(r"\s+", " ", s)`). -/
def collapseWs (cs : List Char) : List Char := collapseWsAux false cs

/-- `normalize_team_for_key(name)` (source lines 858-861): strip, drop a
leading 1-2 digit ranking token, collapse whitespace, upper-case. -/
def normalize_team_for_key (name : String) : String :=
  let stripped := py_strip name
  let unranked := py_strip ⟨stripLeadingRank stripped.data⟩
  py_upper ⟨collapseWs unranked.data⟩

/-- `make_game_key(kickoff_dt, away, home, espn_game_id)` (source lines
863-869): an external id wins verbatim; else `date|AWAY|HOME`, the date part
being the kickoff's calendar day or the literal `0000-00-00` when the
kickoff is unknown.  The date rendering `strftime("%Y-%m-%d")` is modelled
by the decimal day index (see header). -/
def make_game_key (kickoff_dt : Option Nat) (away_name_display home_name_display : String)
    (espn_game_id : Option String) : String :=
  match espn_game_id with
  | some gid => gid
  | none =>
      let dt_part := match kickoff_dt with
        | some k => Nat.repr (dateOf k)
        | none => "0000-00-00"
      dt_part ++ "|" ++ normalize_team_for_key away_name_display ++ "|" ++
        normalize_team_for_key home_name_display

/-! ## The worksheet model -/

/-- One worksheet row (cells as text; absent cells read as `""`). -/
abbrev Row := List String

/-- The `Lines` worksheet as `get_all_values()` returns it: row 1 (the
header) at index 0, pair rows from row 2 on. -/
abbrev Sheet := List Row

/-- Read cell (row `r`, column `c`), both 1-based; an absent cell is `""`
(`gspread` returns `None`, which the source treats as falsy text). -/
def getCell (s : Sheet) (r c : Nat) : String := (s.getD (r - 1) []).getD (c - 1) ""

/-- Header columns A-H. -/
def HEADER_AH : Row := ["Logo", "Team", "Pick #", "Line", "Pick #", "O/U", "Date", "Time"]

/-- Header columns I-R. -/
def HEADER_IR : Row :=
  ["League", "WeekTag", "Phase", "GameKey", "KickoffLocal", "ReleaseAt", "FreezeAt",
   "Locked", "Status", "LastUpdated"]

/-- Configuration constants, with the values they hold in the file. -/
def TEST_MODE_IGNORE_LOCKS : Bool := false

/-- Optional explicit week targeting: `None` in the file. -/
def NFL_WEEK : Option Nat := none

/-- Optional explicit week targeting: `None` in the file. -/
def CFB_WEEK : Option Nat := none

/-- Optional explicit year targeting: `None` in the file. -/
def NFL_YEAR : Option Nat := none

/-- Optional explicit year targeting: `None` in the file. -/
def CFB_YEAR : Option Nat := none

/-- Blank spacer block inserted between the two leagues' regions. -/
def SPACER_ROWS_BETWEEN_LEAGUES : Nat := 4

/-- `PHASE_NFL` config constant. -/
def PHASE_NFL : String := "regular"

/-- `PHASE_CFB` config constant. -/
def PHASE_CFB : String := "regular"

/-- `ensure_headers` on the header row alone: rewrite columns A1:R1 when the
first 18 cells do not match the expected labels, leaving any cells beyond
column R untouched. -/
def ensure_header_row (h : Row) : Row :=
  if h.take 18 = HEADER_AH ++ HEADER_IR then h else (HEADER_AH ++ HEADER_IR) ++ h.drop 18

/-- `ensure_headers(worksheet)` (source lines 789-801). -/
def ensure_headers (s : Sheet) : Sheet :=
  match s with
  | [] => [HEADER_AH ++ HEADER_IR]
  | h :: rest => ensure_header_row h :: rest

/-! ## Input normalization (`normalize_rows_to_AH`, `pack_pairs_to_games`) -/

/-- Does `hay` start with `needle`? -/
def startsWithChars : List Char → List Char → Bool
  | [], _ => true
  | _ :: _, [] => false
  | n :: ns, h :: hs => n = h && startsWithChars ns hs

/-- Python's `needle in hay` substring test. -/
def containsSub (needle : List Char) : List Char → Bool
  | [] => startsWithChars needle []
  | c :: cs => startsWithChars needle (c :: cs) || containsSub needle cs

/-- The trailing-blank pop loop of `normalize_rows_to_AH`, phrased on the
reversed row: pop the last cell while the row is longer than 8 cells and
that cell is blank. -/
def popBlanksRev : List String → List String
  | [] => []
  | c :: rest =>
      if (c :: rest).length > 8 && py_strip c = "" then popBlanksRev rest else c :: rest

/-- Normalize one scraped row to the 8-column A..H shape
`[Logo, Team, Pick#, Line, Pick#, O/U, Date, Nat]` (source lines 123-157):
8-wide rows pass through, 6-wide legacy rows `[Logo, Team, Date, Nat,
Line, O/U]` are remapped, other widths go through the AM/PM heuristic or
are padded/truncated.  (`None` rows are skipped by the source; the model's
rows are always present.) -/
def normalize_row_to_AH (r : Row) : Row :=
  let r := (popBlanksRev r.reverse).reverse
  if r.length = 8 then r
  else if r.length = 6 then
    [r.getD 0 "", r.getD 1 "", "", r.getD 4 "", "", r.getD 5 "", r.getD 2 "", r.getD 3 ""]
  else if r.length ≥ 6 &&
      (containsSub "AM".data (py_upper (r.getD 3 "")).data ||
       containsSub "PM".data (py_upper (r.getD 3 "")).data) then
    [r.getD 0 "", r.getD 1 "", "", r.getD 4 "", "", r.getD 5 "", r.getD 2 "", r.getD 3 ""]
  else
    (r ++ List.replicate 8 "").take 8

/-- `normalize_rows_to_AH(rows)`. -/
def normalize_rows_to_AH (rows : List Row) : List Row := rows.map normalize_row_to_AH

/-- One scraped event pair as `pack_pairs_to_games` builds it
(source lines 871-894). -/
structure Game where
  away_row : Row
  home_row : Row
  away_team_disp : String
  home_team_disp : String
  date_text : String
  time_text : String
  away_line : String
  home_line : String
  ou_top : String
  ou_bottom : String
deriving Repr, DecidableEq

/-- `pack_pairs_to_games(row_pairs)`: consecutive (away, home) row pairs; a
dangling final row is dropped. -/
def pack_pairs_to_games : List Row → List Game
  | away :: home :: rest =>
      { away_row := away, home_row := home,
        away_team_disp := away.getD 1 "", home_team_disp := home.getD 1 "",
        date_text := away.getD 6 "", time_text := away.getD 7 "",
        away_line := away.getD 3 "", home_line := home.getD 3 "",
        ou_top := away.getD 5 "", ou_bottom := home.getD 5 "" } :: pack_pairs_to_games rest
  | _ => []

/-! ## Week tags -/

/-- Model of `dt.year` (see header: calendar rendering abstracted to the
model clock). -/
def timeYear (t : Nat) : Nat := t / 525600

/-- Model of `dt.isocalendar().week`. -/
def isoWeekOf (t : Nat) : Nat := t / minsPerWeek

/-- `week_tag_explicit(league, kickoff_dt)` (source lines 60-68): with the
file's configuration (`CFB_WEEK = NFL_WEEK = None`) this always returns
`None`; the definition keeps the source's structure. -/
def week_tag_explicit (league : String) (kickoff_dt : Option Nat) (now : Nat) :
    Option String :=
  if league = "ncaaf" && CFB_WEEK.isSome then
    some (Nat.repr (CFB_YEAR.getD (timeYear (kickoff_dt.getD now))) ++ "-CFB-Wk" ++
      Nat.repr (CFB_WEEK.getD 0))
  else if league = "nfl" && NFL_WEEK.isSome then
    some (Nat.repr (NFL_YEAR.getD (timeYear (kickoff_dt.getD now))) ++ "-NFL-Wk" ++
      Nat.repr (NFL_WEEK.getD 0))
  else none

/-- `compute_week_tag(kickoff_dt, league, phase)` (source lines 847-856);
the year/ISO-week extraction follows the header's model-clock abstraction.
Unknown kickoffs fall back to `now`, exactly as in the source. -/
def compute_week_tag (kickoff_dt : Option Nat) (now : Nat) (league phase : String) :
    String :=
  let year := match kickoff_dt with
    | none => timeYear now
    | some k => timeYear k
  let league_tag := if league = "nfl" then "NFL" else "CFB"
  if phase = "playoffs" || phase = "bowls" then
    Nat.repr year ++ "-" ++ league_tag ++ "-" ++ py_capitalize phase
  else
    Nat.repr year ++ "-" ++ league_tag ++ "-Wk" ++ Nat.repr (isoWeekOf (kickoff_dt.getD now))

/-! ## Pair-block deletion (shared by the legacy cleanup and the purge)

Both `_cleanup_legacy_misaligned_rows` and `_purge_lines_to_current_week`
walk the even pair tops `2, 4, ...`, mark bad pairs, group the marked tops
into contiguous blocks, and delete the blocks bottom-up so earlier row
indices stay valid.  The source inlines this walk twice; the model factors
it into `delete_marked_pairs`, parameterized by the per-pair-top test. -/

/-- The pair tops `range(2, n+1, 2)` of a sheet with `n` rows. -/
def pairTops (n : Nat) : List Nat := List.range' 2 (n / 2) 2

/-- `worksheet.delete_rows(s, e)`: remove rows `s..e` inclusive (1-based). -/
def delete_rows (vals : Sheet) (s e : Nat) : Sheet := vals.take (s - 1) ++ vals.drop e

/-- Contiguous-block grouping of marked pair tops (the `blocks` loop of the
source): an open run `[start..prev]` is extended by `prev + 2` and closed as
`(start, prev + 1)` otherwise. -/
def group_blocks_aux (start prev : Nat) : List Nat → List (Nat × Nat)
  | [] => [(start, prev + 1)]
  | t :: ts =>
      if t = prev + 2 then group_blocks_aux start t ts
      else (start, prev + 1) :: group_blocks_aux t t ts

/-- Group a (sorted) list of marked pair tops into contiguous blocks. -/
def group_blocks : List Nat → List (Nat × Nat)
  | [] => []
  | t :: ts => group_blocks_aux t t ts

/-- Apply the deletions `for s, e in reversed(blocks)`: the first block of
the list is deleted last, so the recursion deletes the tail's blocks first. -/
def apply_delete_blocks : List (Nat × Nat) → Sheet → Sheet
  | [], vals => vals
  | b :: bs, vals => delete_rows (apply_delete_blocks bs vals) b.1 b.2

/-- Mark, group, delete: the common shape of the cleanup and the purge. -/
def delete_marked_pairs (vals : Sheet) (bad : Row → Bool) : Sheet :=
  let tops := (pairTops vals.length).filter (fun t => bad (vals.getD (t - 1) []))
  match tops with
  | [] => vals
  | _ :: _ => apply_delete_blocks (group_blocks tops) vals

/-- The per-pair test of `_cleanup_legacy_misaligned_rows` (source lines
906-948): a pair is deleted when its top row's Date column G holds a league
marker from the old 6-column writes. -/
def cleanup_bad_row (r : Row) : Bool :=
  r.length ≥ 7 &&
    (let g := py_lower (py_strip (r.getD 6 ""))
     g = "ncaaf" || g = "nfl")

/-- `_cleanup_legacy_misaligned_rows(lines_ws)`. -/
def cleanup_legacy_misaligned_rows (vals : Sheet) : Sheet :=
  if vals.length < 2 then vals else delete_marked_pairs vals cleanup_bad_row

/-- `_football_week_monday(dt)` (source lines 950-954): Monday 00:00 of
`dt`'s week. -/
def football_week_monday (t : Nat) : Nat := (t / minsPerDay - weekday t) * minsPerDay

/-- The column the purge reads, `COL_KICK = 12`.  Note: 12 is column L, the
GameKey column; the source comment says M (KickoffLocal), which would be 13. -/
def COL_KICK : Nat := 12

/-- `parse_kick(s)` inside the purge: strip, empty fails, else parse as
timestamp text (`strptime("%Y-%m-%d %H:%M")`, modelled per the header). -/
def parse_kick (s : String) : Option Nat :=
  let s := py_strip s
  if s = "" then none else decDigits? s.data

/-- The per-pair test of `_purge_lines_to_current_week`: delete a pair whose
top row is shorter than `COL_KICK` columns, or whose `COL_KICK` cell does
not parse as a timestamp inside the current Monday-anchored week
`[week_start, week_start + 7 days)`.  The locked column P is not consulted. -/
def purge_bad_row (now_dt : Nat) (r : Row) : Bool :=
  if r.length < COL_KICK then true
  else
    let week_start := football_week_monday now_dt
    let week_end := week_start + 7 * minsPerDay
    match parse_kick (r.getD (COL_KICK - 1) "") with
    | none => true
    | some k => !(week_start ≤ k && k < week_end)

/-- `_purge_lines_to_current_week(spreadsheet, now_dt, phase_cfb, phase_nfl)`
(source lines 956-1016); the phase arguments are accepted and ignored
exactly as in the source. -/
def purge_lines_to_current_week (vals : Sheet) (now_dt : Nat)
    (_phase_cfb _phase_nfl : String) : Sheet :=
  if vals.length < 2 then vals else delete_marked_pairs vals (purge_bad_row now_dt)

/-! ## The merge/upsert engine -/

/-- A queued 2-row batch write `{"range": "Lines!A{top}:R{top+1}",
"values": [full_away, full_home]}` built by `queue_pair_range` (source
lines 1018-1026), rows trimmed/padded to 18 columns. -/
structure Queued where
  top : Nat
  away : Row
  home : Row
deriving Repr, DecidableEq

/-- `queue_pair_range(ws_title, top_row, full_away, full_home)`. -/
def queue_pair_range (top_row : Nat) (full_away full_home : Row) : Queued :=
  { top := top_row,
    away := (full_away ++ List.replicate 18 "").take 18,
    home := (full_home ++ List.replicate 18 "").take 18 }

/-- `_normalize_pair_alignment(queued_ranges)` (source lines 85-111): bump a
pair whose top row is odd down one row so tops stay even. -/
def normalize_pair_alignment (qs : List Queued) : List Queued :=
  qs.map fun q => if q.top % 2 = 1 then { q with top := q.top + 1 } else q

/-- An all-blank 18-column grid row (what an untouched grown-grid row reads
back as). -/
def blankRow : Row := List.replicate 18 ""

/-- Write row `r` (1-based) of the sheet, growing the grid with blank rows
as needed (the source grows the grid to `max_row_needed` before the batch). -/
def setSheetRow (s : Sheet) (r : Nat) (v : Row) : Sheet :=
  if r ≤ s.length then s.set (r - 1) v
  else s ++ List.replicate (r - 1 - s.length) blankRow ++ [v]

/-- Apply a queued batch in order (`values_batch_update` applies its ranges
in the order given). -/
def apply_writes (s : Sheet) (qs : List Queued) : Sheet :=
  qs.foldl (fun acc q => setSheetRow (setSheetRow acc q.top q.away) (q.top + 1) q.home) s

/-- `upsert_lines_strict(lines_ws, queued_ranges)` (source lines 1028-1078):
nothing queued writes nothing; otherwise align pair tops, grow the grid, and
apply the batch.  Grid growth is implicit in the list model. -/
def upsert_lines_strict (s : Sheet) (qs : List Queued) : Sheet :=
  match qs with
  | [] => s
  | _ :: _ => apply_writes s (normalize_pair_alignment qs)

/-- `now >= t` for an optional timestamp, under Python truthiness
(`t and now >= t`): a missing timestamp is falsy. -/
def reached (now : Nat) (t : Option Nat) : Bool :=
  match t with
  | none => false
  | some t => t ≤ now

/-- The `locked_flag` / `status` / `allow_lines` computation of the merge
loop (source lines 1154-1164): placeholder/unlocked by default, then the two
sequential window+time gates.  Both gates require `window_ok`. -/
def game_flags (now : Nat) (kickoff_dt release_at freeze_at : Option Nat) :
    String × String × Bool :=
  let locked_flag := "N"
  let status := "placeholder"
  let allow_lines := false
  let window_ok := publish_window_allows now kickoff_dt
  let sa := if window_ok && reached now release_at then ("posted", true)
            else (status, allow_lines)
  if window_ok && reached now freeze_at then ("Y", "locked", true)
  else (locked_flag, sa.1, sa.2)

/-- Normalize the literal `N/A` line and over/under cells to blank (the
`else` branch over `(a, h)` at source lines 1172-1175). -/
def naBlank (r : Row) : Row :=
  let r := if r.getD 3 "" = "N/A" then r.set 3 "" else r
  if r.getD 5 "" = "N/A" then r.set 5 "" else r

/-- The evolving state of the merge loop: the GameKey index (`index[gk] = r`
with dict overwrite semantics: a prepended entry shadows older ones), the
next append row, and the queued writes in order. -/
structure LoopState where
  index : List (String × Nat)
  append_top : Nat
  queued : List Queued
deriving Repr, DecidableEq

/-- `index` built from the post-purge sheet (source lines 1125-1132): walk
the even pair tops and record each nonempty GameKey cell L; a later pair
with the same key wins. -/
def build_index (existing : Sheet) : List (String × Nat) :=
  (pairTops existing.length).foldl
    (fun idx r =>
      let row_vals := existing.getD (r - 1) []
      if row_vals.length ≥ 12 then
        let gk := row_vals.getD 11 ""
        if gk ≠ "" then (gk, r) :: idx else idx
      else idx)
    []

/-- `last_row_with_data` / `append_top` initialization (source lines
1139-1144). -/
def init_append_top (existing : Sheet) (spacer_rows : Nat) : Nat :=
  let last_row_with_data := if existing.isEmpty then 1 else existing.length
  let a := last_row_with_data + 1 + spacer_rows
  let a := if a < 2 then 2 else a
  if a % 2 = 1 then a + 1 else a

/-- The kickoff of a scraped pair, `parse_kickoff_local(g["date_text"],
g["time_text"], TIMEZONE)` at the top of the merge loop body. -/
def game_kickoff (g : Game) : Option Nat := parse_kickoff_local g.date_text g.time_text

/-- The release timestamp computed for a scraped pair in the loop body. -/
def game_release (league phase : String) (g : Game) : Option Nat :=
  (compute_release_freeze (game_kickoff g) league phase).1

/-- The freeze timestamp computed for a scraped pair in the loop body. -/
def game_freeze (league phase : String) (g : Game) : Option Nat :=
  (compute_release_freeze (game_kickoff g) league phase).2

/-- The week tag computed for a scraped pair in the loop body
(`week_tag_explicit(...) or compute_week_tag(...)`). -/
def game_week_tag (league phase : String) (now : Nat) (g : Game) : String :=
  (week_tag_explicit league (game_kickoff g) now).getD
    (compute_week_tag (game_kickoff g) now league phase)

/-- The game key computed for a scraped pair in the loop body
(`espn_game_id=None` always). -/
def game_key_of (g : Game) : String :=
  make_game_key (game_kickoff g) g.away_team_disp g.home_team_disp none

/-- The `allow_lines` gate of the loop body for a scraped pair. -/
def game_allow (now : Nat) (league phase : String) (g : Game) : Bool :=
  (game_flags now (game_kickoff g) (game_release league phase g)
    (game_freeze league phase g)).2.2

/-- The metadata columns I-R written for a scraped pair. -/
def game_meta (league phase : String) (now : Nat) (g : Game) : Row :=
  [(if league = "ncaaf" then "ncaaf" else "nfl"), game_week_tag league phase now g,
   phase, game_key_of g, fmt_opt (game_kickoff g),
   fmt_opt (game_release league phase g), fmt_opt (game_freeze league phase g),
   (game_flags now (game_kickoff g) (game_release league phase g)
     (game_freeze league phase g)).1,
   (game_flags now (game_kickoff g) (game_release league phase g)
     (game_freeze league phase g)).2.1,
   fmtTime now]

/-- The persisted-lock test of the matched branch:
`(not TEST_MODE_IGNORE_LOCKS) and locked_cell and str(locked_cell).upper() == "Y"`,
where the cell is read live (column P of the pair's top row) from the
post-purge, pre-batch sheet. -/
def locked_here (existing : Sheet) (top_row : Nat) : Bool :=
  !TEST_MODE_IGNORE_LOCKS && getCell existing top_row 16 ≠ "" &&
    py_upper (getCell existing top_row 16) = "Y"

/-- The queued update write of the matched branch: both display rows are
N/A-normalized (a matched key is in the index, so the placeholder blanking
branch is not taken) and share the metadata columns. -/
def matched_write (league phase : String) (now : Nat) (top_row : Nat) (g : Game) :
    Queued :=
  queue_pair_range top_row (naBlank g.away_row ++ game_meta league phase now g)
    (naBlank g.home_row ++ game_meta league phase now g)

/-- The body of `for g in games` (source lines 1148-1210): parse the
kickoff, compute release/freeze, week tag and game key, gate the flags,
blank or normalize the display rows, and either queue an insert at the
append cursor or look up the existing pair, skipping it when its persisted
Locked cell reads "Y" (the live `get_value(f"P{top_row}")` reads the
post-purge, pre-batch sheet `existing`) or when lines are not allowed yet. -/
def process_game (league phase : String) (now : Nat) (existing : Sheet)
    (st : LoopState) (g : Game) : LoopState :=
  let game_key := game_key_of g
  let allow_lines := game_allow now league phase g
  let inIndex := (st.index.lookup game_key).isSome
  let ah :=
    if !allow_lines && !inIndex then
      ((g.away_row.set 3 "").set 5 "", (g.home_row.set 3 "").set 5 "")
    else
      (naBlank g.away_row, naBlank g.home_row)
  let full_away := ah.1 ++ game_meta league phase now g
  let full_home := ah.2 ++ game_meta league phase now g
  if !inIndex then
    let rng := queue_pair_range st.append_top full_away full_home
    { index := (game_key, st.append_top) :: st.index,
      append_top := st.append_top + 2,
      queued := st.queued ++ [rng] }
  else
    let top_row := (st.index.lookup game_key).getD 0
    if locked_here existing top_row then st
    else if !allow_lines then st
    else
      { st with queued := st.queued ++ [queue_pair_range top_row full_away full_home] }

/-- The spacer applied before appending college rows after existing data
(source lines 1119-1122). -/
def spacer_for (league : String) (existing : Sheet) : Nat :=
  if league = "ncaaf" && existing.length > 1 then SPACER_ROWS_BETWEEN_LEAGUES else 0

/-- Run the merge loop over the games, from the freshly read post-purge
sheet `existing`. -/
def merge_loop (existing : Sheet) (games : List Game) (league phase : String)
    (now : Nat) : LoopState :=
  games.foldl (process_game league phase now existing)
    { index := build_index existing,
      append_top := init_append_top existing (spacer_for league existing),
      queued := [] }

/-- The post-purge part of `merge_staging_into_lines` (source lines
1116-1213): read the sheet back, index it, run the loop, and apply the
strict batched write.  (The trailing cell formatting is visual only.) -/
def merge_staging_core (existing : Sheet) (games : List Game) (league phase : String)
    (now : Nat) : Sheet :=
  upsert_lines_strict existing (merge_loop existing games league phase now).queued

/-- `merge_staging_into_lines(spreadsheet, staging_rows, league, phase)`
(source lines 1080-1213): normalize the staging rows, ensure headers, drop
legacy misaligned pairs, purge to the current week, then merge the packed
games into the surviving sheet. -/
def merge_staging_into_lines (sheet : Sheet) (staging_rows : List Row)
    (league phase : String) (now : Nat) : Sheet :=
  let staging := normalize_rows_to_AH staging_rows
  let sheet := ensure_headers sheet
  let sheet := cleanup_legacy_misaligned_rows sheet
  let sheet := purge_lines_to_current_week sheet now
    (if league = "ncaaf" then phase else PHASE_CFB)
    (if league = "nfl" then phase else PHASE_NFL)
  merge_staging_core sheet (pack_pairs_to_games staging) league phase now

/-! ## Pair-structured sheets

The data model fixes that a ledger entry is exactly two physical rows with
the away row on an even top (§3 of the spec).  `flatPairs` builds the data
region of such a sheet from its list of entries; all structural theorems
below quantify over sheets of the shape `hdr :: flatPairs ps`. -/

/-- Flatten a list of (away, home) entry pairs into the data rows. -/
def flatPairs : List (Row × Row) → List Row
  | [] => []
  | p :: ps => p.1 :: p.2 :: flatPairs ps

theorem flatPairs_append (ps qs : List (Row × Row)) :
    flatPairs (ps ++ qs) = flatPairs ps ++ flatPairs qs := by
  induction ps with
  | nil => rfl
  | cons p ps ih => simp [flatPairs, ih]

theorem length_flatPairs (ps : List (Row × Row)) :
    (flatPairs ps).length = 2 * ps.length := by
  induction ps with
  | nil => rfl
  | cons p ps ih => simp [flatPairs, ih]; omega

/-! ### Block deletion deletes exactly the marked pairs -/

/-- The marked pair tops of a pair list whose first top row number is
`start`. -/
def badTopsFrom (bad : Row → Bool) (start : Nat) : List (Row × Row) → List Nat
  | [] => []
  | p :: ps =>
      if bad p.1 then start :: badTopsFrom bad (start + 2) ps
      else badTopsFrom bad (start + 2) ps

/-- Delete the 2-row pairs at the listed tops, last top first (so earlier
row numbers stay valid), as the grouped bottom-up block deletion does. -/
def delete_tops_desc : List Nat → Sheet → Sheet
  | [], v => v
  | t :: ts, v => delete_rows (delete_tops_desc ts v) t (t + 1)

theorem delete_tops_desc_append (xs ys : List Nat) (v : Sheet) :
    delete_tops_desc (xs ++ ys) v = delete_tops_desc xs (delete_tops_desc ys v) := by
  induction xs with
  | nil => rfl
  | cons t ts ih => simp [delete_tops_desc, ih]

theorem delete_tops_desc_run (m : Nat) (s : Nat) (v : Sheet) :
    delete_tops_desc (List.range' s (m + 1) 2) v =
      v.take (s - 1) ++ v.drop (s + 2 * (m + 1) - 1) := by
  induction m generalizing s v with
  | zero =>
      have h : s + 2 * (0 + 1) - 1 = s + 1 := by omega
      simp [List.range'_succ, delete_tops_desc, delete_rows, h]
  | succ m ih =>
      rw [List.range'_succ, delete_tops_desc, ih (s + 2) v]
      show delete_rows _ s (s + 1) = _
      unfold delete_rows
      have h₂ : s + 2 - 1 = s + 1 := by omega
      rw [h₂]
      rcases le_or_lt (s + 1) v.length with hle | hlt
      · have hlen : (v.take (s + 1)).length = s + 1 := by
          simp [List.length_take]; omega
        rw [List.take_append_eq_append_take, List.drop_append_eq_append_drop,
          List.take_take, hlen]
        have h₃ : min (s - 1) (s + 1) = s - 1 := by omega
        have h₄ : s - 1 - (s + 1) = 0 := by omega
        have h₅ : s + 1 - (s + 1) = 0 := by omega
        have h₆ : List.drop (s + 1) (v.take (s + 1)) = [] := by
          apply List.drop_eq_nil_of_le
          simp [hlen]
        have h₇ : s + 2 + 2 * (m + 1) - 1 = s + 2 * (m + 1 + 1) - 1 := by omega
        simp [h₃, h₄, h₅, h₆, h₇]
      · have hv : v.take (s + 1) = v := List.take_of_length_le (by omega)
        have hD : v.drop (s + 2 + 2 * (m + 1) - 1) = [] :=
          List.drop_eq_nil_of_le (by omega)
        have hD2 : v.drop (s + 1) = [] := List.drop_eq_nil_of_le (by omega)
        have hD3 : v.drop (s + 2 * (m + 1 + 1) - 1) = [] :=
          List.drop_eq_nil_of_le (by omega)
        have hD4 : v.drop (s + 1 + 2 * (m + 1)) = [] :=
          List.drop_eq_nil_of_le (by omega)
        simp [hv, hD, hD2, hD3, hD4]

theorem delete_tops_desc_badTops (bad : Row → Bool) (ps : List (Row × Row)) :
    ∀ (A : Sheet) (start : Nat), A.length = start - 1 → 1 ≤ start →
    delete_tops_desc (badTopsFrom bad start ps) (A ++ flatPairs ps) =
      A ++ flatPairs (ps.filter (fun p => !bad p.1)) := by
  induction ps with
  | nil => intro A start _ _; simp [badTopsFrom, delete_tops_desc, flatPairs]
  | cons p ps ih =>
      intro A start hA hs
      have hassoc : A ++ flatPairs (p :: ps) = (A ++ [p.1, p.2]) ++ flatPairs ps := by
        simp [flatPairs]
      have hA2 : (A ++ [p.1, p.2]).length = start + 2 - 1 := by
        simp [hA]; omega
      by_cases hb : bad p.1
      · rw [show badTopsFrom bad start (p :: ps) =
            start :: badTopsFrom bad (start + 2) ps by simp [badTopsFrom, hb]]
        rw [delete_tops_desc, hassoc, ih (A ++ [p.1, p.2]) (start + 2) hA2 (by omega)]
        unfold delete_rows
        have htake : ((A ++ [p.1, p.2]) ++
            flatPairs (ps.filter (fun p => !bad p.1))).take (start - 1) =
            A.take (start - 1) := by
          rw [List.append_assoc, List.take_append_eq_append_take]
          have : start - 1 - A.length = 0 := by omega
          simp [this]
        have hdropped : ((A ++ [p.1, p.2]) ++
            flatPairs (ps.filter (fun p => !bad p.1))).drop (start + 1) =
            flatPairs (ps.filter (fun p => !bad p.1)) := by
          have : start + 1 = (A ++ [p.1, p.2]).length := by simp [hA]; omega
          rw [this, List.drop_left]
        rw [htake, hdropped]
        have : A.take (start - 1) = A := List.take_of_length_le (by omega)
        rw [this, List.filter_cons_of_neg (by simp [hb])]
      · rw [show badTopsFrom bad start (p :: ps) =
            badTopsFrom bad (start + 2) ps by simp [badTopsFrom, hb]]
        rw [hassoc, ih (A ++ [p.1, p.2]) (start + 2) hA2 (by omega)]
        rw [List.filter_cons_of_pos (by simp [hb])]
        simp [flatPairs]

theorem apply_group_blocks_aux (ts : List Nat) :
    ∀ (start prev : Nat) (v : Sheet), start ≤ prev → (prev - start) % 2 = 0 →
    apply_delete_blocks (group_blocks_aux start prev ts) v =
      delete_tops_desc (List.range' start ((prev - start) / 2 + 1) 2)
        (delete_tops_desc ts v) := by
  induction ts with
  | nil =>
      intro start prev v hsp hmod
      show delete_rows (apply_delete_blocks [] v) start (prev + 1) = _
      rw [show delete_tops_desc ([] : List Nat) v = v from rfl, delete_tops_desc_run]
      show delete_rows v start (prev + 1) = _
      unfold delete_rows
      have harg : start + 2 * ((prev - start) / 2 + 1) - 1 = prev + 1 := by omega
      rw [harg]
  | cons t ts ih =>
      intro start prev v hsp hmod
      show apply_delete_blocks
        (if t = prev + 2 then group_blocks_aux start t ts
         else (start, prev + 1) :: group_blocks_aux t t ts) v = _
      by_cases ht : t = prev + 2
      · rw [if_pos ht, ih start t v (by omega) (by omega)]
        have hm : (t - start) / 2 + 1 = ((prev - start) / 2 + 1) + 1 := by omega
        rw [hm, List.range'_concat]
        have harg : start + 2 * ((prev - start) / 2 + 1) = t := by omega
        rw [harg, delete_tops_desc_append]
        simp [delete_tops_desc]
      · rw [if_neg ht]
        show delete_rows (apply_delete_blocks (group_blocks_aux t t ts) v)
          start (prev + 1) = _
        rw [ih t t v le_rfl (by simp)]
        have h1 : (t - t) / 2 + 1 = 1 := by omega
        rw [h1]
        have hsingle : delete_tops_desc (List.range' t 1 2) (delete_tops_desc ts v) =
            delete_tops_desc (t :: ts) v := by
          simp [List.range'_one, delete_tops_desc]
        rw [hsingle, delete_tops_desc_run ((prev - start) / 2) start]
        unfold delete_rows
        have harg : start + 2 * ((prev - start) / 2 + 1) - 1 = prev + 1 := by omega
        rw [harg]

theorem badTopsFrom_nil_filter (bad : Row → Bool) (ps : List (Row × Row)) :
    ∀ start, badTopsFrom bad start ps = [] →
    ps.filter (fun p => !bad p.1) = ps := by
  induction ps with
  | nil => intro _ _; rfl
  | cons p ps ih =>
      intro start h
      by_cases hb : bad p.1
      · rw [show badTopsFrom bad start (p :: ps) =
            start :: badTopsFrom bad (start + 2) ps by simp [badTopsFrom, hb]] at h
        exact absurd h (by simp)
      · rw [show badTopsFrom bad start (p :: ps) =
            badTopsFrom bad (start + 2) ps by simp [badTopsFrom, hb]] at h
        rw [List.filter_cons_of_pos (by simp [hb]), ih (start + 2) h]

theorem filtered_tops_eq_badTopsFrom (bad : Row → Bool) (ps : List (Row × Row)) :
    ∀ (A : Sheet) (start : Nat), A.length = start - 1 → 1 ≤ start →
    (List.range' start ps.length 2).filter
        (fun t => bad ((A ++ flatPairs ps).getD (t - 1) [])) =
      badTopsFrom bad start ps := by
  induction ps with
  | nil => intro A start _ _; simp [badTopsFrom, flatPairs]
  | cons p ps ih =>
      intro A start hA hs
      have hassoc : A ++ flatPairs (p :: ps) = (A ++ [p.1, p.2]) ++ flatPairs ps := by
        simp [flatPairs]
      have hA2 : (A ++ [p.1, p.2]).length = start + 2 - 1 := by
        simp [hA]; omega
      have hget : (A ++ flatPairs (p :: ps)).getD (start - 1) [] = p.1 := by
        rw [List.getD_append_right _ _ _ _ (by omega)]
        have : start - 1 - A.length = 0 := by omega
        simp [this, flatPairs]
      rw [show (p :: ps).length = ps.length + 1 from rfl, List.range'_succ,
        List.filter_cons]
      rw [hassoc] at hget ⊢
      rw [ih (A ++ [p.1, p.2]) (start + 2) hA2 (by omega)]
      by_cases hb : bad p.1
      · simp only [hget, hb, if_pos]
        simp [badTopsFrom, hb]
      · simp only [hget, hb]
        simp [badTopsFrom, hb]

/-- Deleting the marked pair blocks of a pair-structured sheet keeps exactly
the unmarked pairs, in order: the grouping into contiguous blocks and the
bottom-up deletion are together a filter on the entry list. -/
theorem delete_marked_pairs_pairs (bad : Row → Bool) (hdr : Row)
    (ps : List (Row × Row)) :
    delete_marked_pairs (hdr :: flatPairs ps) bad =
      hdr :: flatPairs (ps.filter (fun p => !bad p.1)) := by
  unfold delete_marked_pairs
  have hlen : (hdr :: flatPairs ps).length = 1 + 2 * ps.length := by
    simp [length_flatPairs]; omega
  have htops : pairTops (hdr :: flatPairs ps).length = List.range' 2 ps.length 2 := by
    unfold pairTops; rw [hlen]; congr 1; omega
  have hfil : (List.range' 2 ps.length 2).filter
      (fun t => bad ((hdr :: flatPairs ps).getD (t - 1) [])) = badTopsFrom bad 2 ps := by
    have h := filtered_tops_eq_badTopsFrom bad ps [hdr] 2 (by simp) (by omega)
    simpa using h
  rw [htops]
  rw [hfil]
  cases hbt : badTopsFrom bad 2 ps with
  | nil => rw [badTopsFrom_nil_filter bad ps 2 hbt]
  | cons t ts =>
      show apply_delete_blocks (group_blocks (t :: ts)) (hdr :: flatPairs ps) = _
      rw [show group_blocks (t :: ts) = group_blocks_aux t t ts from rfl]
      rw [apply_group_blocks_aux ts t t _ le_rfl (by simp)]
      have h1 : (t - t) / 2 + 1 = 1 := by omega
      rw [h1]
      have hsingle : delete_tops_desc (List.range' t 1 2)
          (delete_tops_desc ts (hdr :: flatPairs ps)) =
          delete_tops_desc (t :: ts) (hdr :: flatPairs ps) := by
        simp [List.range'_one, delete_tops_desc]
      rw [hsingle, ← hbt]
      have h := delete_tops_desc_badTops bad ps [hdr] 2 (by simp) (by omega)
      simpa using h

/-- The purge on a pair-structured sheet filters the entry list by its
per-pair test. -/
theorem purge_pairs_char (hdr : Row) (ps : List (Row × Row)) (now : Nat)
    (pc pn : String) :
    purge_lines_to_current_week (hdr :: flatPairs ps) now pc pn =
      hdr :: flatPairs (ps.filter (fun p => !purge_bad_row now p.1)) := by
  unfold purge_lines_to_current_week
  cases ps with
  | nil => simp [flatPairs]
  | cons p ps =>
      rw [if_neg (by simp [flatPairs])]
      exact delete_marked_pairs_pairs _ _ _

/-- The legacy cleanup on a pair-structured sheet filters the entry list by
its per-pair test. -/
theorem cleanup_pairs_char (hdr : Row) (ps : List (Row × Row)) :
    cleanup_legacy_misaligned_rows (hdr :: flatPairs ps) =
      hdr :: flatPairs (ps.filter (fun p => !cleanup_bad_row p.1)) := by
  unfold cleanup_legacy_misaligned_rows
  cases ps with
  | nil => simp [flatPairs]
  | cons p ps =>
      rw [if_neg (by simp [flatPairs])]
      exact delete_marked_pairs_pairs _ _ _

/-! ## Claim C1 — purge vs. locked entries -/

/-- The expected 18-column header row, used by the concrete examples. -/
def exHeader : Row := HEADER_AH ++ HEADER_IR

/-- A persisted, locked ledger entry (top row): Locked column P is "Y", and
the column-12 cell holds the timestamp 20000 — the following week, outside
the current window of the example instant 1800 (Tuesday 06:00 of week 0). -/
def exC1top : Row :=
  ["", "Jets", "", "NYJ -3", "", "O 44", "September 25", "1140", "nfl",
   "0-NFL-Wk1", "regular", "20000", "20000", "18721", "19440", "Y", "locked", "900"]

/-- The home row of the locked example entry. -/
def exC1bot : Row :=
  ["", "Bills", "", "BUF +3", "", "U 44", "September 25", "1140", "nfl",
   "0-NFL-Wk1", "regular", "20000", "20000", "18721", "19440", "Y", "locked", "900"]

/-- C1 counterexample: a persisted entry whose Locked cell (column P of the
pair's top row) is "Y" but whose stored timestamp falls in the following
week is removed by the purge step — the locked flag does not protect it. -/
theorem purge_deletes_locked_out_of_week_entry :
    getCell [exHeader, exC1top, exC1bot] 2 16 = "Y" ∧
    purge_lines_to_current_week [exHeader, exC1top, exC1bot] 1800 "regular" "regular" =
      [exHeader] := by
  exact ⟨rfl, rfl⟩

/-- C1 (amended): the purge step gives locked entries no protection at all.
On a pair-structured ledger it keeps exactly the pairs whose column-12 cell
(the GameKey column — the source intends the KickoffLocal column M)
parses as a timestamp inside the current Monday-anchored week, and deletes
every other pair; the Locked column P is never consulted, so a locked entry
outside the current week window is deleted. -/
theorem purge_keeps_exactly_current_week_pairs (hdr : Row) (ps : List (Row × Row))
    (now : Nat) (pc pn : String) :
    purge_lines_to_current_week (hdr :: flatPairs ps) now pc pn =
      hdr :: flatPairs (ps.filter (fun p =>
        decide (COL_KICK ≤ p.1.length) &&
          (match parse_kick (p.1.getD (COL_KICK - 1) "") with
           | none => false
           | some k =>
               decide (football_week_monday now ≤ k) &&
                 decide (k < football_week_monday now + 7 * minsPerDay)))) := by
  rw [purge_pairs_char]
  congr 2
  apply List.filter_congr
  intro p _
  unfold purge_bad_row
  rcases Nat.lt_or_ge p.1.length COL_KICK with h | h
  · simp [h, Nat.not_le.mpr h]
  · rw [if_neg (by omega)]
    cases hk : parse_kick (p.1.getD (COL_KICK - 1) "") with
    | none => simp [h]
    | some k => simp [h, Bool.not_not]

/-! ## Claims C7, C8 — scheduler and publish gate -/

/-- C7: the release/freeze scheduler is a pure total function of the kickoff
timestamp alone.  An unknown kickoff yields unknown release and freeze.  For
a known kickoff, writing `mon` for the Monday 00:00 of the kickoff's week: a
Thursday/Friday kickoff yields release = the following Tuesday 00:01
(`mon` + 1 day + 1 min; its weekday is Tuesday) and freeze = that Tuesday
12:00; any other weekday yields release = the following Thursday 00:01 and
freeze = that Thursday 12:00; and in every defined case release ≤ freeze.
("Following Tuesday/Thursday" is read as in §4.3 of the spec: the named
weekday following the Monday of the kickoff's week.) -/
theorem release_freeze_schedule (league phase : String) :
    compute_release_freeze none league phase = (none, none) ∧
    ∀ k : Nat,
      let mon := (k / minsPerDay - weekday k) * minsPerDay
      compute_release_freeze (some k) league phase =
        (if weekday k = 3 ∨ weekday k = 4 then
           (some (mon + minsPerDay + 1), some (mon + minsPerDay + 720))
         else
           (some (mon + 3 * minsPerDay + 1), some (mon + 3 * minsPerDay + 720))) ∧
      weekday (mon + minsPerDay + 1) = 1 ∧
      weekday (mon + minsPerDay + 720) = 1 ∧
      weekday (mon + 3 * minsPerDay + 1) = 3 ∧
      weekday (mon + 3 * minsPerDay + 720) = 3 ∧
      mon + minsPerDay + 1 ≤ mon + minsPerDay + 720 ∧
      mon + 3 * minsPerDay + 1 ≤ mon + 3 * minsPerDay + 720 := by
  refine ⟨rfl, fun k => ⟨rfl, ?_, ?_, ?_, ?_, ?_, ?_⟩⟩ <;>
    · simp only [weekday, minsPerDay]
      omega

/-- C8: the publish gate is exactly the stated day-of-week policy.  An
unknown kickoff always passes.  For a known kickoff, with `week_mon` the
Monday of the run's week: a Tuesday run passes exactly the kickoffs dated
within [week_mon+3, week_mon+4] (a Thursday and a Friday), a Thursday run
passes exactly [week_mon+5, week_mon+7] (Saturday through the following
Monday), and every other weekday passes nothing. -/
theorem publish_gate_policy (now : Nat) :
    publish_window_allows now none = true ∧
    ∀ k : Nat,
      let week_mon := dateOf now - weekday now
      publish_window_allows now (some k) =
        (if weekday now = 1 then
           decide (week_mon + 3 ≤ dateOf k) && decide (dateOf k ≤ week_mon + 4)
         else if weekday now = 3 then
           decide (week_mon + 5 ≤ dateOf k) && decide (dateOf k ≤ week_mon + 7)
         else false) ∧
      week_mon % 7 = 0 ∧ (week_mon + 3) % 7 = 3 ∧ (week_mon + 4) % 7 = 4 ∧
      (week_mon + 5) % 7 = 5 ∧ (week_mon + 7) % 7 = 0 := by
  refine ⟨rfl, fun k => ⟨rfl, ?_, ?_, ?_, ?_, ?_⟩⟩ <;>
    · unfold dateOf weekday minsPerDay
      omega

/-! ## Claim C3 — what the merge engine writes into the locked flag -/

/-- The flags computation as one case split: both the freeze gate and the
release gate require the publish window. -/
theorem game_flags_spec (now : Nat) (kickoff_dt release_at freeze_at : Option Nat) :
    game_flags now kickoff_dt release_at freeze_at =
      (if publish_window_allows now kickoff_dt && reached now freeze_at then
         ("Y", "locked", true)
       else if publish_window_allows now kickoff_dt && reached now release_at then
         ("N", "posted", true)
       else ("N", "placeholder", false)) := by
  unfold game_flags
  by_cases h1 : publish_window_allows now kickoff_dt && reached now freeze_at <;>
    by_cases h2 : publish_window_allows now kickoff_dt && reached now release_at <;>
      simp [h1, h2]

/-- C3 counterexample: on a Wednesday run (now = 3660) with a Thursday
kickoff (5460), the freeze time 2160 is defined and already reached, yet the
flag computed for the queued write is "N" and the status "placeholder" —
because the publish gate is closed, locking is suppressed, contradicting
"locked is Y exactly when now ≥ freeze_at" and "status may be locked even
when the publish window is currently closed". -/
theorem window_closed_blocks_locking :
    compute_release_freeze (some 5460) "nfl" "regular" = (some 1441, some 2160) ∧
    reached 3660 (some 2160) = true ∧
    publish_window_allows 3660 (some 5460) = false ∧
    game_flags 3660 (some 5460) (some 1441) (some 2160) = ("N", "placeholder", false) :=
  ⟨rfl, rfl, rfl, rfl⟩

/-- C3 (amended): the merge loop computes the locked flag "Y" — and the
status "locked" — exactly when the publish gate allows the kickoff AND the
freeze time is defined and reached (`now ≥ freeze_at`).  The publish gate
therefore does take part in locking: with the gate closed the flag stays
"N" even past the freeze time. -/
theorem locked_flag_iff_window_and_freeze (now : Nat)
    (kickoff_dt release_at freeze_at : Option Nat) :
    ((game_flags now kickoff_dt release_at freeze_at).1 = "Y" ↔
      publish_window_allows now kickoff_dt = true ∧
        ∃ f, freeze_at = some f ∧ f ≤ now) ∧
    ((game_flags now kickoff_dt release_at freeze_at).2.1 = "locked" ↔
      publish_window_allows now kickoff_dt = true ∧
        ∃ f, freeze_at = some f ∧ f ≤ now) := by
  rw [game_flags_spec]
  have hiff : (publish_window_allows now kickoff_dt && reached now freeze_at) = true ↔
      publish_window_allows now kickoff_dt = true ∧ ∃ f, freeze_at = some f ∧ f ≤ now := by
    rw [Bool.and_eq_true]
    apply and_congr_right
    intro _
    cases freeze_at with
    | none => simp [reached]
    | some f => simp [reached]
  by_cases h1 : publish_window_allows now kickoff_dt && reached now freeze_at
  · rw [if_pos h1]
    constructor <;>
      · constructor
        · intro _; exact hiff.mp h1
        · intro _; rfl
  · rw [if_neg h1]
    by_cases h2 : publish_window_allows now kickoff_dt && reached now release_at
    · rw [if_pos h2]
      constructor <;>
        · constructor
          · intro h; exact absurd h (by decide)
          · intro h; exact absurd (hiff.mpr h) h1
    · rw [if_neg h2]
      constructor <;>
        · constructor
          · intro h; exact absurd h (by decide)
          · intro h; exact absurd (hiff.mpr h) h1

/-! ## Claim C5 — the game key of an unparseable kickoff -/

/-- C5 counterexample: a pair whose time text is "TBD" has an unparseable
kickoff, and its game key is `0000-00-00|JETS|BILLS` — the fixed
unknown-date sentinel, not the week-tagged `week_tag|JETS|BILLS` the claim
states (shown here against the current week tag computed at the example
instant 1800). -/
theorem tbd_key_not_week_tagged :
    parse_kickoff_local "September 25" "TBD" = none ∧
    make_game_key (parse_kickoff_local "September 25" "TBD") "Jets" "Bills" none =
      "0000-00-00|JETS|BILLS" ∧
    compute_week_tag none 1800 "nfl" "regular" ++ "|JETS|BILLS" ≠
      "0000-00-00|JETS|BILLS" := by
  refine ⟨rfl, rfl, ?_⟩
  decide

/-- C5 (amended): for every event pair whose kickoff cannot be parsed and
that has no external event identifier, the game key is
`0000-00-00|AWAY|HOME` — the date part is the fixed unknown-date sentinel
(not the current week's tag), and AWAY/HOME are the normalized team names
(leading 1-2 digit ranking token stripped, whitespace collapsed,
upper-cased).  The key is stable across runs since it depends only on the
team names. -/
theorem unparsed_kickoff_key_uses_sentinel (date_text time_text away home : String)
    (h : parse_kickoff_local date_text time_text = none) :
    make_game_key (parse_kickoff_local date_text time_text) away home none =
      "0000-00-00|" ++ normalize_team_for_key away ++ "|" ++
        normalize_team_for_key home := by
  rw [h]
  rfl

/-- Witness for the amended C5: the "TBD" fixture of the spec's scenario,
with a ranked away team, evaluates to the sentinel-keyed literal. -/
theorem unparsed_kickoff_key_uses_sentinel_witness :
    parse_kickoff_local "September 25" "TBD" = none ∧
    normalize_team_for_key "9 Jets" = "JETS" ∧
    make_game_key (parse_kickoff_local "September 25" "TBD") "9 Jets" "Bills" none =
      "0000-00-00|" ++ normalize_team_for_key "9 Jets" ++ "|" ++
        normalize_team_for_key "Bills" :=
  ⟨rfl, rfl, unparsed_kickoff_key_uses_sentinel "September 25" "TBD" "9 Jets" "Bills" rfl⟩

/-! ## Game keys never parse as timestamps

A game key always contains the separator bar, and the purge's timestamp
parse (`strptime`) fails on any such string; so no fresh pair write can
survive the next run's purge, and no scraped key can match a purge
survivor. -/

theorem mem_dropWhile_of_not {p : Char -> Bool} {c : Char} (hc : p c = false) :
    ∀ {l : List Char}, c ∈ l -> c ∈ l.dropWhile p := by
  intro l
  induction l with
  | nil => intro h; cases h
  | cons a l ih =>
      intro h
      by_cases ha : p a
      · rw [List.dropWhile_cons_of_pos ha]
        rcases List.mem_cons.mp h with rfl | hm
        · rw [ha] at hc; cases hc
        · exact ih hm
      · rw [List.dropWhile_cons_of_neg ha]
        exact h

theorem pipe_mem_py_strip {s : String} (h : '|' ∈ s.data) :
    '|' ∈ (py_strip s).data := by
  unfold py_strip
  show '|' ∈ ((s.data.dropWhile isWs).reverse.dropWhile isWs).reverse
  rw [List.mem_reverse]
  apply mem_dropWhile_of_not (by decide)
  rw [List.mem_reverse]
  exact mem_dropWhile_of_not (by decide) h

theorem decDigits?_eq_none_of_pipe {cs : List Char} (h : '|' ∈ cs) :
    decDigits? cs = none := by
  unfold decDigits?
  rw [if_neg]
  rintro ⟨-, hall⟩
  have := (List.all_eq_true.mp hall) '|' h
  simp at this

theorem parse_kick_none_of_pipe {s : String} (h : '|' ∈ s.data) :
    parse_kick s = none := by
  unfold parse_kick
  by_cases he : py_strip s = ""
  · simp [he]
  · simp only [he, if_neg, if_false]
    exact decDigits?_eq_none_of_pipe (pipe_mem_py_strip h)

theorem pipe_mem_make_game_key (k : Option Nat) (a h : String) :
    '|' ∈ (make_game_key k a h none).data := by
  unfold make_game_key
  cases k with
  | none =>
      simp only [String.data_append]
      simp
  | some t =>
      simp only [String.data_append]
      simp

/-- The purge's timestamp parse always fails on a game key. -/
theorem parse_kick_game_key (k : Option Nat) (a h : String) :
    parse_kick (make_game_key k a h none) = none :=
  parse_kick_none_of_pipe (pipe_mem_make_game_key k a h)

/-! ## Index and cursor facts -/

theorem lookup_mem {l : List (String × Nat)} {k : String} {r : Nat}
    (h : l.lookup k = some r) : (k, r) ∈ l := by
  induction l with
  | nil => cases h
  | cons e l ih =>
      unfold List.lookup at h
      rcases hbeq : k == e.1 with - | -
      · obtain ⟨k1, r1⟩ := e
        rw [show (k == (k1, r1).1) = false from hbeq] at h
        exact List.mem_cons_of_mem _ (ih h)
      · obtain ⟨k1, r1⟩ := e
        rw [show (k == (k1, r1).1) = true from hbeq] at h
        have hk : k = k1 := eq_of_beq hbeq
        subst hk
        cases h
        exact List.mem_cons_self _ _

theorem lookup_eq_none_of_keys_ne {l : List (String × Nat)} {k : String}
    (h : ∀ e ∈ l, e.1 ≠ k) : l.lookup k = none := by
  induction l with
  | nil => rfl
  | cons e l ih =>
      unfold List.lookup
      obtain ⟨k1, r1⟩ := e
      have hne : k1 ≠ k := h (k1, r1) (List.mem_cons_self _ _)
      rw [show (k == (k1, r1).1) = false by simpa using fun hc => hne hc.symm]
      exact ih fun e he => h e (List.mem_cons_of_mem _ he)

/-- Every entry of the freshly built index sits at an even pair top within
the sheet, carries that top row's nonempty GameKey cell, and that row has at
least 12 columns. -/
theorem build_index_mem (existing : Sheet) :
    ∀ e ∈ build_index existing,
      e.2 % 2 = 0 ∧ 2 ≤ e.2 ∧ e.2 ≤ existing.length ∧
      12 ≤ (existing.getD (e.2 - 1) []).length ∧
      (existing.getD (e.2 - 1) []).getD 11 "" = e.1 ∧ e.1 ≠ "" := by
  have htops : ∀ t ∈ pairTops existing.length,
      t % 2 = 0 ∧ 2 ≤ t ∧ t ≤ existing.length := by
    intro t ht
    unfold pairTops at ht
    rw [List.mem_range'] at ht
    obtain ⟨i, hi, rfl⟩ := ht
    omega
  unfold build_index
  generalize hT : pairTops existing.length = tops at htops
  clear hT
  have main : ∀ (tops : List Nat) (acc : List (String × Nat)),
      (∀ t ∈ tops, t % 2 = 0 ∧ 2 ≤ t ∧ t ≤ existing.length) ->
      (∀ e ∈ acc, e.2 % 2 = 0 ∧ 2 ≤ e.2 ∧ e.2 ≤ existing.length ∧
        12 ≤ (existing.getD (e.2 - 1) []).length ∧
        (existing.getD (e.2 - 1) []).getD 11 "" = e.1 ∧ e.1 ≠ "") ->
      ∀ e ∈ tops.foldl
        (fun idx r =>
          let row_vals := existing.getD (r - 1) []
          if row_vals.length ≥ 12 then
            let gk := row_vals.getD 11 ""
            if gk ≠ "" then (gk, r) :: idx else idx
          else idx) acc,
        e.2 % 2 = 0 ∧ 2 ≤ e.2 ∧ e.2 ≤ existing.length ∧
        12 ≤ (existing.getD (e.2 - 1) []).length ∧
        (existing.getD (e.2 - 1) []).getD 11 "" = e.1 ∧ e.1 ≠ "" := by
    intro tops
    induction tops with
    | nil => intro acc _ hacc e he; exact hacc e he
    | cons t ts ih =>
        intro acc htop hacc e he
        refine ih _ (fun x hx => htop x (List.mem_cons_of_mem _ hx)) ?_ e he
        intro e' he'
        dsimp only at he'
        by_cases h12 : (existing.getD (t - 1) []).length ≥ 12
        · rw [if_pos h12] at he'
          by_cases hgk : (existing.getD (t - 1) []).getD 11 "" ≠ ""
          · rw [if_pos hgk] at he'
            rcases List.mem_cons.mp he' with rfl | hm
            · have ht := htop t (List.mem_cons_self _ _)
              exact ⟨ht.1, ht.2.1, ht.2.2, h12, rfl, hgk⟩
            · exact hacc _ hm
          · rw [if_neg hgk] at he'
            exact hacc _ he'
        · rw [if_neg h12] at he'
          exact hacc _ he'
  exact main _ [] htops (by intro e he; cases he)

/-- The initial append cursor sits strictly below the freshly read sheet and
on an even row. -/
theorem init_append_top_spec (existing : Sheet) (sp : Nat) (hne : existing ≠ []) :
    existing.length < init_append_top existing sp ∧ init_append_top existing sp % 2 = 0 := by
  unfold init_append_top
  have hemp : existing.isEmpty = false := by
    cases existing with
    | nil => cases hne rfl
    | cons a l => rfl
  rw [hemp]
  simp only [Bool.false_eq_true, if_false]
  split <;> split <;> omega

/-! ## The merge loop at one matched pair -/

/-- The full 18-column rows queued for a brand-new pair: blanked line and
over/under cells when lines are not allowed yet, N/A-normalized cells
otherwise, plus the shared metadata. -/
def fresh_rows (league phase : String) (now : Nat) (g : Game) : Row × Row :=
  if game_allow now league phase g then
    (naBlank g.away_row ++ game_meta league phase now g,
     naBlank g.home_row ++ game_meta league phase now g)
  else
    ((g.away_row.set 3 "").set 5 "" ++ game_meta league phase now g,
     (g.home_row.set 3 "").set 5 "" ++ game_meta league phase now g)

/-- When the game key misses the index, the loop body queues an insert at
the append cursor and advances it. -/
theorem process_game_eq_insert (league phase : String) (now : Nat) (existing : Sheet)
    (st : LoopState) (g : Game)
    (h : st.index.lookup (game_key_of g) = none) :
    process_game league phase now existing st g =
      { index := (game_key_of g, st.append_top) :: st.index,
        append_top := st.append_top + 2,
        queued := st.queued ++ [queue_pair_range st.append_top
          (fresh_rows league phase now g).1 (fresh_rows league phase now g).2] } := by
  unfold process_game fresh_rows
  by_cases ha : game_allow now league phase g <;> simp [h, ha]

/-- When the game key hits the index, the loop body either skips (persisted
lock, or lines not allowed) or queues the matched update write. -/
theorem process_game_eq_matched (league phase : String) (now : Nat) (existing : Sheet)
    (st : LoopState) (g : Game) (r : Nat)
    (h : st.index.lookup (game_key_of g) = some r) :
    process_game league phase now existing st g =
      (if locked_here existing r then st
       else if !game_allow now league phase g then st
       else { st with
         queued := st.queued ++ [matched_write league phase now r g] }) := by
  unfold process_game matched_write queue_pair_range
  by_cases hl : locked_here existing r <;>
    by_cases ha : game_allow now league phase g <;>
      simp [h, hl, ha]

/-- The loop invariant tying the evolving state to a distinguished matched
pair at top row `r₀` with key `K` of the post-purge sheet `existing`. -/
structure MergeInv (existing : Sheet) (r₀ : Nat) (K : String) (st : LoopState) : Prop where
  lookupK : st.index.lookup K = some r₀
  keyAt : ∀ e ∈ st.index, e.2 = r₀ → e.1 = K
  rowsEven : ∀ e ∈ st.index, e.2 % 2 = 0
  appendGt : existing.length < st.append_top
  appendEven : st.append_top % 2 = 0
  queuedEven : ∀ q ∈ st.queued, q.top % 2 = 0

theorem process_game_step (league phase : String) (now : Nat) (existing : Sheet)
    (r₀ : Nat) (K : String) (hr0 : r₀ ≤ existing.length)
    (st : LoopState) (g : Game) (hinv : MergeInv existing r₀ K st) :
    MergeInv existing r₀ K (process_game league phase now existing st g) ∧
    ∃ Δ, (process_game league phase now existing st g).queued = st.queued ++ Δ ∧
      (∀ q ∈ Δ, q.top % 2 = 0) ∧
      Δ.filter (fun q => q.top == r₀) =
        (if game_key_of g == K && !locked_here existing r₀ &&
            game_allow now league phase g then
          [matched_write league phase now r₀ g] else []) := by
  cases hlook : st.index.lookup (game_key_of g) with
  | none =>
      have hne : game_key_of g ≠ K := by
        intro hEq
        rw [hEq, hinv.lookupK] at hlook
        cases hlook
      have hbeqK : (K == game_key_of g) = false := by
        simpa using fun hc => hne hc.symm
      have hbeqK2 : (game_key_of g == K) = false := by
        simpa using hne
      rw [process_game_eq_insert league phase now existing st g hlook]
      refine ⟨⟨?_, ?_, ?_, ?_, ?_, ?_⟩, ?_⟩
      · show List.lookup K ((game_key_of g, st.append_top) :: st.index) = some r₀
        unfold List.lookup
        rw [hbeqK]
        exact hinv.lookupK
      · intro e he hr
        rcases List.mem_cons.mp he with rfl | hm
        · exfalso
          have := hinv.appendGt
          simp only at hr
          omega
        · exact hinv.keyAt e hm hr
      · intro e he
        rcases List.mem_cons.mp he with rfl | hm
        · have := hinv.appendEven
          simpa using this
        · exact hinv.rowsEven e hm
      · have := hinv.appendGt
        simp only
        omega
      · have := hinv.appendEven
        simp only
        omega
      · intro q hq
        simp only at hq
        rcases List.mem_append.mp hq with hm | hm
        · exact hinv.queuedEven q hm
        · rcases List.mem_singleton.mp hm with rfl
          exact hinv.appendEven
      · refine ⟨[queue_pair_range st.append_top
          (fresh_rows league phase now g).1 (fresh_rows league phase now g).2], rfl, ?_, ?_⟩
        · intro q hq
          rcases List.mem_singleton.mp hq with rfl
          exact hinv.appendEven
        · rw [hbeqK2]
          simp only [Bool.false_and, Bool.false_eq_true, if_false]
          rw [List.filter_cons_of_neg, List.filter_nil]
          have := hinv.appendGt
          simp only [queue_pair_range]
          simpa using by omega
  | some r =>
      have hmem : (game_key_of g, r) ∈ st.index := lookup_mem hlook
      rw [process_game_eq_matched league phase now existing st g r hlook]
      by_cases hK : game_key_of g = K
      · have hr : r = r₀ := by
          rw [hK, hinv.lookupK] at hlook
          cases hlook
          rfl
        subst hr
        subst hK
        by_cases hl : locked_here existing r
        · rw [if_pos hl]
          refine ⟨hinv, [], by simp, by simp, ?_⟩
          rw [hl]
          simp
        · rw [if_neg hl]
          by_cases ha : game_allow now league phase g
          · rw [if_neg (by simp [ha])]
            refine ⟨⟨hinv.lookupK, hinv.keyAt, hinv.rowsEven, hinv.appendGt,
              hinv.appendEven, ?_⟩, ?_⟩
            · intro q hq
              simp only at hq
              rcases List.mem_append.mp hq with hm | hm
              · exact hinv.queuedEven q hm
              · rcases List.mem_singleton.mp hm with rfl
                exact hinv.rowsEven _ hmem
            · refine ⟨[matched_write league phase now r g], rfl, ?_, ?_⟩
              · intro q hq
                rcases List.mem_singleton.mp hq with rfl
                exact hinv.rowsEven _ hmem
              · rw [show (game_key_of g == game_key_of g) = true by simp]
                rw [show locked_here existing r = false from
                  Bool.eq_false_iff.mpr hl, show game_allow now league phase g = true
                  from ha]
                simp [matched_write, queue_pair_range]
          · rw [if_pos (by simp [ha])]
            refine ⟨hinv, [], by simp, by simp, ?_⟩
            rw [show game_allow now league phase g = false from
              Bool.eq_false_iff.mpr ha]
            simp
      · have hrne : r ≠ r₀ := fun hEq => hK (hinv.keyAt _ hmem hEq)
        have hbeq : (game_key_of g == K) = false := by simpa using hK
        have hfin : ∀ (st' : LoopState), st' = st ∨
            st' = { st with queued := st.queued ++ [matched_write league phase now r g] } →
            MergeInv existing r₀ K st' ∧
            ∃ Δ, st'.queued = st.queued ++ Δ ∧ (∀ q ∈ Δ, q.top % 2 = 0) ∧
              Δ.filter (fun q => q.top == r₀) =
                (if game_key_of g == K && !locked_here existing r₀ &&
                    game_allow now league phase g then
                  [matched_write league phase now r₀ g] else []) := by
          intro st' hst'
          rcases hst' with rfl | rfl
          · refine ⟨hinv, [], by simp, by simp, ?_⟩
            rw [hbeq]
            simp
          · refine ⟨⟨hinv.lookupK, hinv.keyAt, hinv.rowsEven, hinv.appendGt,
              hinv.appendEven, ?_⟩, ?_⟩
            · intro q hq
              simp only at hq
              rcases List.mem_append.mp hq with hm | hm
              · exact hinv.queuedEven q hm
              · rcases List.mem_singleton.mp hm with rfl
                exact hinv.rowsEven _ hmem
            · refine ⟨[matched_write league phase now r g], rfl, ?_, ?_⟩
              · intro q hq
                rcases List.mem_singleton.mp hq with rfl
                exact hinv.rowsEven _ hmem
              · rw [hbeq]
                simp only [Bool.false_and, Bool.false_eq_true, if_false]
                rw [List.filter_cons_of_neg, List.filter_nil]
                simp [matched_write, queue_pair_range]
                omega
        by_cases hl : locked_here existing r
        · rw [if_pos hl]; exact hfin st (Or.inl rfl)
        · rw [if_neg hl]
          by_cases ha : game_allow now league phase g
          · rw [if_neg (by simp [ha])]
            exact hfin _ (Or.inr rfl)
          · rw [if_pos (by simp [ha])]
            exact hfin st (Or.inl rfl)

theorem merge_fold_at_pair (league phase : String) (now : Nat) (existing : Sheet)
    (r₀ : Nat) (K : String) (hr0 : r₀ ≤ existing.length) :
    ∀ (games : List Game) (st : LoopState), MergeInv existing r₀ K st →
      MergeInv existing r₀ K
        (games.foldl (process_game league phase now existing) st) ∧
      (games.foldl (process_game league phase now existing) st).queued.filter
          (fun q => q.top == r₀) =
        st.queued.filter (fun q => q.top == r₀) ++
          (games.filter (fun g => game_key_of g == K && !locked_here existing r₀ &&
            game_allow now league phase g)).map
              (matched_write league phase now r₀) := by
  intro games
  induction games with
  | nil => intro st hinv; exact ⟨hinv, by simp⟩
  | cons g gs ih =>
      intro st hinv
      obtain ⟨hinv', Δ, hqueued, hΔeven, hΔfil⟩ :=
        process_game_step league phase now existing r₀ K hr0 st g hinv
      obtain ⟨hinvF, hfil⟩ := ih _ hinv'
      refine ⟨hinvF, ?_⟩
      rw [show (g :: gs).foldl (process_game league phase now existing) st =
        gs.foldl (process_game league phase now existing)
          (process_game league phase now existing st g) from rfl]
      rw [hfil, hqueued, List.filter_append, hΔfil, List.filter_cons]
      by_cases hc : game_key_of g == K && !locked_here existing r₀ &&
          game_allow now league phase g
      · rw [hc]
        simp
      · rw [show (game_key_of g == K && !locked_here existing r₀ &&
            game_allow now league phase g) = false from Bool.eq_false_iff.mpr hc]
        simp

/-! ## Applying the batch around an untouched pair -/

theorem length_setSheetRow_ge (s : Sheet) (r : Nat) (v : Row) :
    s.length ≤ (setSheetRow s r v).length := by
  unfold setSheetRow
  split
  · simp
  · simp

theorem getD_setSheetRow_lt (s : Sheet) (r : Nat) (v : Row) (j : Nat)
    (hj : j < s.length) (hne : j ≠ r - 1) :
    (setSheetRow s r v).getD j [] = s.getD j [] := by
  unfold setSheetRow
  split
  · rw [List.getD_eq_getD_get?, List.getD_eq_getD_get?, List.get?_set_ne _ _ (fun h => hne h.symm)]
  · rw [List.append_assoc, List.getD_append _ _ _ _ hj]

theorem apply_writes_untouched (s : Sheet) (qs : List Queued) (r₀ : Nat)
    (hr : r₀ < s.length) (hr0even : r₀ % 2 = 0) (hr0pos : 2 ≤ r₀)
    (hq : ∀ q ∈ qs, q.top % 2 = 0 ∧ q.top ≠ r₀) :
    (apply_writes s qs).getD (r₀ - 1) [] = s.getD (r₀ - 1) [] ∧
    (apply_writes s qs).getD r₀ [] = s.getD r₀ [] := by
  induction qs generalizing s with
  | nil => exact ⟨rfl, rfl⟩
  | cons q qs ih =>
      obtain ⟨hqe, hqne⟩ := hq q (List.mem_cons_self _ _)
      have hrest : ∀ p ∈ qs, p.top % 2 = 0 ∧ p.top ≠ r₀ :=
        fun p hp => hq p (List.mem_cons_of_mem _ hp)
      have hs1 : s.length ≤ (setSheetRow s q.top q.away).length :=
        length_setSheetRow_ge _ _ _
      have hs2 : (setSheetRow s q.top q.away).length ≤
          (setSheetRow (setSheetRow s q.top q.away) (q.top + 1) q.home).length :=
        length_setSheetRow_ge _ _ _
      have step : ∀ j, j < s.length → j ≠ q.top - 1 → j ≠ q.top →
          (setSheetRow (setSheetRow s q.top q.away) (q.top + 1) q.home).getD j [] =
            s.getD j [] := by
        intro j hjlt hne1 hne2
        rw [getD_setSheetRow_lt _ _ _ _ (by omega) (by omega),
          getD_setSheetRow_lt _ _ _ _ hjlt hne1]
      have h1 : (setSheetRow (setSheetRow s q.top q.away) (q.top + 1) q.home).getD
          (r₀ - 1) [] = s.getD (r₀ - 1) [] := by
        apply step _ (by omega) (by omega) (by omega)
      have h2 : (setSheetRow (setSheetRow s q.top q.away) (q.top + 1) q.home).getD
          r₀ [] = s.getD r₀ [] := by
        apply step _ (by omega) (by omega) (by omega)
      show ((apply_writes (setSheetRow (setSheetRow s q.top q.away) (q.top + 1) q.home)
        qs).getD (r₀ - 1) [] = _) ∧ _
      obtain ⟨ih1, ih2⟩ := ih (setSheetRow (setSheetRow s q.top q.away) (q.top + 1) q.home)
        (by omega) hrest
      exact ⟨ih1.trans h1, ih2.trans h2⟩

theorem normalize_pair_alignment_id (qs : List Queued)
    (h : ∀ q ∈ qs, q.top % 2 = 0) : normalize_pair_alignment qs = qs := by
  unfold normalize_pair_alignment
  induction qs with
  | nil => rfl
  | cons q qs ih =>
      rw [List.map_cons]
      rw [if_neg (by have := h q (List.mem_cons_self _ _); omega)]
      rw [ih (fun p hp => h p (List.mem_cons_of_mem _ hp))]

theorem upsert_even_tops (s : Sheet) (qs : List Queued)
    (h : ∀ q ∈ qs, q.top % 2 = 0) : upsert_lines_strict s qs = apply_writes s qs := by
  cases qs with
  | nil => rfl
  | cons q qs =>
      unfold upsert_lines_strict
      rw [normalize_pair_alignment_id _ h]

theorem flatPairs_getD (ps : List (Row × Row)) :
    ∀ i p, ps.get? i = some p →
      (flatPairs ps).getD (2 * i) [] = p.1 ∧ (flatPairs ps).getD (2 * i + 1) [] = p.2 := by
  induction ps with
  | nil => intro i p h; cases h
  | cons q ps ih =>
      intro i p h
      cases i with
      | zero =>
          cases h
          exact ⟨rfl, rfl⟩
      | succ i =>
          have hh := ih i p h
          have e1 : 2 * (i + 1) = (2 * i + 1) + 1 := by omega
          constructor
          · rw [e1]
            show (flatPairs ps).getD (2 * i) [] = p.1
            exact hh.1
          · rw [show 2 * (i + 1) + 1 = ((2 * i + 1) + 1) + 1 from by omega]
            show (flatPairs ps).getD (2 * i + 1) [] = p.2
            exact hh.2

/-! ## Claim C2 — locked entries are never rewritten by the merge -/

/-- C2: with the test-only ignore-locks flag false (its value in the file),
a scraped pair that matches an existing ledger entry whose persisted Locked
cell (column P of the pair's top row) is "Y" is skipped entirely by the
merge engine: after the whole merge (index, loop, batched write), both
physical rows of that entry are exactly as the post-purge sheet held them —
no field is rewritten, whatever the scraped data contains, so the flag
cannot revert to "N".  "Matches" is the engine's own notion: the GameKey
index built from the sheet resolves the entry's key to this pair's top row
`2*i + 2`. -/
theorem merge_skips_locked_entry (hdr : Row) (ps : List (Row × Row))
    (games : List Game) (league phase : String) (now : Nat) (i : Nat) (p : Row × Row)
    (hp : ps.get? i = some p)
    (hlookup : (build_index (hdr :: flatPairs ps)).lookup (p.1.getD 11 "") =
      some (2 * i + 2))
    (hlocked : py_upper (getCell (hdr :: flatPairs ps) (2 * i + 2) 16) = "Y") :
    (merge_staging_core (hdr :: flatPairs ps) games league phase now).getD
      (2 * i + 1) [] = p.1 ∧
    (merge_staging_core (hdr :: flatPairs ps) games league phase now).getD
      (2 * i + 2) [] = p.2 := by
  have hlen : (hdr :: flatPairs ps).length = 1 + 2 * ps.length := by
    simp [length_flatPairs]
    omega
  have hilt : i < ps.length := by
    by_contra hge
    rw [List.get?_eq_none.mpr (by omega)] at hp
    cases hp
  have hrlt : 2 * i + 2 < (hdr :: flatPairs ps).length := by omega
  have hrows := flatPairs_getD ps i p hp
  have hrow1 : (hdr :: flatPairs ps).getD (2 * i + 1) [] = p.1 := by
    rw [List.getD_cons_succ]
    exact hrows.1
  have hrow2 : (hdr :: flatPairs ps).getD (2 * i + 2) [] = p.2 := by
    rw [List.getD_cons_succ]
    exact hrows.2
  have hcell : getCell (hdr :: flatPairs ps) (2 * i + 2) 16 ≠ "" := by
    intro hc
    rw [hc] at hlocked
    exact absurd hlocked (by decide)
  have hl : locked_here (hdr :: flatPairs ps) (2 * i + 2) = true := by
    unfold locked_here TEST_MODE_IGNORE_LOCKS
    simp [hlocked, hcell]
  have hinv0 : MergeInv (hdr :: flatPairs ps) (2 * i + 2) (p.1.getD 11 "")
      { index := build_index (hdr :: flatPairs ps),
        append_top := init_append_top (hdr :: flatPairs ps)
          (spacer_for league (hdr :: flatPairs ps)),
        queued := [] } := by
    obtain ⟨hgt, hev⟩ := init_append_top_spec (hdr :: flatPairs ps)
      (spacer_for league (hdr :: flatPairs ps)) (by simp)
    refine ⟨hlookup, ?_, ?_, hgt, hev, by intro q hq; cases hq⟩
    · intro e he hr
      obtain ⟨-, -, -, -, hkey, -⟩ := build_index_mem _ e he
      rw [hr] at hkey
      rw [← hkey]
      show ((hdr :: flatPairs ps).getD (2 * i + 2 - 1) []).getD 11 "" = p.1.getD 11 ""
      rw [show 2 * i + 2 - 1 = 2 * i + 1 from by omega, hrow1]
    · intro e he
      exact (build_index_mem _ e he).1
  obtain ⟨hinvF, hfil⟩ := merge_fold_at_pair league phase now (hdr :: flatPairs ps)
    (2 * i + 2) (p.1.getD 11 "") (by omega) games _ hinv0
  have hfilnil : (games.filter (fun g => game_key_of g == p.1.getD 11 "" &&
      !locked_here (hdr :: flatPairs ps) (2 * i + 2) &&
      game_allow now league phase g)) = [] := by
    apply List.filter_eq_nil.mpr
    intro g hg
    rw [hl]
    simp
  rw [hfilnil] at hfil
  simp only [List.filter_nil, List.map_nil, List.append_nil] at hfil
  have hnotouch : ∀ q ∈ (merge_loop (hdr :: flatPairs ps) games league phase now).queued,
      q.top % 2 = 0 ∧ q.top ≠ 2 * i + 2 := by
    intro q hq
    refine ⟨hinvF.queuedEven q hq, ?_⟩
    intro hEq
    have : q ∈ (merge_loop (hdr :: flatPairs ps) games league phase now).queued.filter
        (fun q => q.top == 2 * i + 2) := by
      rw [List.mem_filter]
      exact ⟨hq, by simp [hEq]⟩
    rw [show (merge_loop (hdr :: flatPairs ps) games league phase now).queued =
      (games.foldl (process_game league phase now (hdr :: flatPairs ps))
        { index := build_index (hdr :: flatPairs ps),
          append_top := init_append_top (hdr :: flatPairs ps)
            (spacer_for league (hdr :: flatPairs ps)),
          queued := [] }).queued from rfl] at this
    rw [hfil] at this
    cases this
  show ((upsert_lines_strict (hdr :: flatPairs ps)
    (merge_loop (hdr :: flatPairs ps) games league phase now).queued).getD
      (2 * i + 1) [] = p.1) ∧
    ((upsert_lines_strict (hdr :: flatPairs ps)
      (merge_loop (hdr :: flatPairs ps) games league phase now).queued).getD
        (2 * i + 2) [] = p.2)
  rw [upsert_even_tops _ _ (fun q hq => (hnotouch q hq).1)]
  obtain ⟨h1, h2⟩ := apply_writes_untouched (hdr :: flatPairs ps)
    (merge_loop (hdr :: flatPairs ps) games league phase now).queued (2 * i + 2)
    hrlt (by omega) (by omega) hnotouch
  rw [show 2 * i + 2 - 1 = 2 * i + 1 from by omega] at h1
  exact ⟨h1.trans hrow1, h2.trans hrow2⟩

/-- A persisted, locked entry keyed like a resolved Jets-Bills fixture, used
by the C2 witness. -/
def exLockTop : Row :=
  ["", "Jets", "", "OLD-LINE", "", "O 44", "September 25", "5460", "nfl",
   "0-NFL-Wk0", "regular", "3|JETS|BILLS", "5460", "1441", "2160", "Y", "locked", "111"]

/-- The home row of the locked witness entry. -/
def exLockBot : Row :=
  ["", "Bills", "", "OLD-LINE2", "", "U 44", "September 25", "5460", "nfl",
   "0-NFL-Wk0", "regular", "3|JETS|BILLS", "5460", "1441", "2160", "Y", "locked", "111"]

/-- A freshly scraped Jets-Bills pair (resolved kickoff 5460, new line data)
whose game key matches the locked witness entry. -/
def exScrape : List Row :=
  [["", "Jets", "", "NYJ +3", "", "O 44", "September 25", "5460"],
   ["", "Bills", "", "BUF -3", "", "U 44", "September 25", "5460"]]

/-- Witness for C2: the merge is run at a Tuesday instant past release with
new scraped data for the locked entry, and leaves both its rows untouched. -/
theorem merge_skips_locked_entry_witness :
    (build_index [exHeader, exLockTop, exLockBot]).lookup (exLockTop.getD 11 "") =
      some 2 ∧
    py_upper (getCell [exHeader, exLockTop, exLockBot] 2 16) = "Y" ∧
    (merge_staging_core [exHeader, exLockTop, exLockBot]
      (pack_pairs_to_games (normalize_rows_to_AH exScrape)) "nfl" "regular" 1800).getD
        1 [] = exLockTop ∧
    (merge_staging_core [exHeader, exLockTop, exLockBot]
      (pack_pairs_to_games (normalize_rows_to_AH exScrape)) "nfl" "regular" 1800).getD
        2 [] = exLockBot := by
  refine ⟨rfl, rfl, ?_, ?_⟩
  · exact (merge_skips_locked_entry exHeader [(exLockTop, exLockBot)]
      (pack_pairs_to_games (normalize_rows_to_AH exScrape)) "nfl" "regular" 1800 0
      (exLockTop, exLockBot) rfl rfl rfl).1
  · exact (merge_skips_locked_entry exHeader [(exLockTop, exLockBot)]
      (pack_pairs_to_games (normalize_rows_to_AH exScrape)) "nfl" "regular" 1800 0
      (exLockTop, exLockBot) rfl rfl rfl).2

/-! ## Claim C9 — unlocked matched entries: skip vs. overwrite -/

theorem getD_setSheetRow_self (s : Sheet) (r : Nat) (v : Row)
    (hr1 : 1 ≤ r) (hr : r ≤ s.length) :
    (setSheetRow s r v).getD (r - 1) [] = v := by
  unfold setSheetRow
  rw [if_pos hr]
  rw [List.getD_eq_getD_get?, List.get?_set_eq_of_lt _ (by omega)]
  rfl

theorem apply_writes_last_at (s : Sheet) (qs : List Queued) (r₀ : Nat) (w : Queued)
    (hr : r₀ < s.length) (hr0even : r₀ % 2 = 0) (hr0pos : 2 ≤ r₀)
    (heven : ∀ q ∈ qs, q.top % 2 = 0)
    (hfil : qs.filter (fun q => q.top == r₀) = [w]) :
    (apply_writes s qs).getD (r₀ - 1) [] = w.away ∧
    (apply_writes s qs).getD r₀ [] = w.home := by
  induction qs generalizing s with
  | nil => cases hfil
  | cons q qs ih =>
      have hqe := heven q (List.mem_cons_self _ _)
      have hrest := fun p hp => heven p (List.mem_cons_of_mem q hp)
      have hs1 : s.length ≤ (setSheetRow s q.top q.away).length :=
        length_setSheetRow_ge _ _ _
      have hs2 : (setSheetRow s q.top q.away).length ≤
          (setSheetRow (setSheetRow s q.top q.away) (q.top + 1) q.home).length :=
        length_setSheetRow_ge _ _ _
      show (apply_writes (setSheetRow (setSheetRow s q.top q.away) (q.top + 1) q.home)
        qs).getD (r₀ - 1) [] = w.away ∧ _
      by_cases ht : q.top = r₀
      · rw [List.filter_cons_of_pos (by simp [ht])] at hfil
        have hqw : q = w := by
          injection hfil with h1 h2
        have hrest_nil : qs.filter (fun q => q.top == r₀) = [] := by
          injection hfil with h1 h2
        subst hqw
        subst ht
        have hwrite1 : (setSheetRow (setSheetRow s q.top q.away) (q.top + 1)
            q.home).getD (q.top - 1) [] = q.away := by
          rw [getD_setSheetRow_lt _ _ _ _ (by omega) (by omega)]
          exact getD_setSheetRow_self s q.top q.away (by omega) (by omega)
        have hwrite2 : (setSheetRow (setSheetRow s q.top q.away) (q.top + 1)
            q.home).getD q.top [] = q.home := by
          have := getD_setSheetRow_self (setSheetRow s q.top q.away) (q.top + 1)
            q.home (by omega) (by omega)
          rw [show q.top + 1 - 1 = q.top from by omega] at this
          exact this
        have hnott : ∀ p ∈ qs, p.top % 2 = 0 ∧ p.top ≠ q.top := by
          intro p hp
          refine ⟨hrest p hp, ?_⟩
          intro hEq
          have hmem : p ∈ qs.filter (fun x => x.top == q.top) := by
            rw [List.mem_filter]
            exact ⟨hp, by simp [hEq]⟩
          rw [hrest_nil] at hmem
          cases hmem
        have hlen2 : q.top < (setSheetRow (setSheetRow s q.top q.away) (q.top + 1)
            q.home).length := by omega
        obtain ⟨hu1, hu2⟩ := apply_writes_untouched (setSheetRow (setSheetRow s q.top
          q.away) (q.top + 1) q.home) qs q.top hlen2 hr0even hr0pos hnott
        exact ⟨hu1.trans hwrite1, hu2.trans hwrite2⟩
      · rw [List.filter_cons_of_neg (by simp [ht])] at hfil
        have huntouch : ∀ j, j < s.length → j ≠ q.top - 1 → j ≠ q.top →
            (setSheetRow (setSheetRow s q.top q.away) (q.top + 1) q.home).getD j [] =
              s.getD j [] := by
          intro j hjlt hne1 hne2
          rw [getD_setSheetRow_lt _ _ _ _ (by omega) (by omega),
            getD_setSheetRow_lt _ _ _ _ hjlt hne1]
        exact ih _ (by omega) hrest hfil

theorem filter_and_split (l : List Game) (p q : Game → Bool) :
    l.filter (fun g => p g && q g) = (l.filter p).filter q := by
  induction l with
  | nil => rfl
  | cons g l ih =>
      by_cases hp : p g
      · by_cases hq : q g
        · rw [List.filter_cons_of_pos (by simp [hp, hq]),
            List.filter_cons_of_pos hp, List.filter_cons_of_pos hq, ih]
        · rw [List.filter_cons_of_neg (by simp [hp, hq]),
            List.filter_cons_of_pos hp, List.filter_cons_of_neg hq, ih]
      · rw [List.filter_cons_of_neg (by simp [hp]), List.filter_cons_of_neg hp, ih]

/-- C9 (amended): for a scraped pair matching an existing UNLOCKED entry,
the deciding condition is `allow_lines` — the publish gate must allow the
kickoff AND its release (or freeze) time must be defined and reached — not
the gate alone.  First part: if every matching scraped pair has
`allow_lines = false` (in particular whenever the gate disallows the
kickoff, but also when the gate allows it and `now` is before the release),
the entry's two rows are left completely unchanged.  Second part: if the
matching scraped pair (unique for this key in this scrape) has
`allow_lines = true`, both rows are overwritten with the freshly scraped
display data and the refreshed metadata columns I-R (`matched_write`). -/
theorem unlocked_entry_update_requires_allow (hdr : Row) (ps : List (Row × Row))
    (games : List Game) (league phase : String) (now : Nat) (i : Nat) (p : Row × Row)
    (hp : ps.get? i = some p)
    (hlookup : (build_index (hdr :: flatPairs ps)).lookup (p.1.getD 11 "") =
      some (2 * i + 2))
    (hunlocked : py_upper (getCell (hdr :: flatPairs ps) (2 * i + 2) 16) ≠ "Y") :
    ((∀ g ∈ games, game_key_of g = p.1.getD 11 "" →
        game_allow now league phase g = false) →
      (merge_staging_core (hdr :: flatPairs ps) games league phase now).getD
        (2 * i + 1) [] = p.1 ∧
      (merge_staging_core (hdr :: flatPairs ps) games league phase now).getD
        (2 * i + 2) [] = p.2) ∧
    (∀ g, games.filter (fun g2 => game_key_of g2 == p.1.getD 11 "") = [g] →
      game_allow now league phase g = true →
      (merge_staging_core (hdr :: flatPairs ps) games league phase now).getD
        (2 * i + 1) [] = (matched_write league phase now (2 * i + 2) g).away ∧
      (merge_staging_core (hdr :: flatPairs ps) games league phase now).getD
        (2 * i + 2) [] = (matched_write league phase now (2 * i + 2) g).home) := by
  have hlen : (hdr :: flatPairs ps).length = 1 + 2 * ps.length := by
    simp [length_flatPairs]
    omega
  have hilt : i < ps.length := by
    by_contra hge
    rw [List.get?_eq_none.mpr (by omega)] at hp
    cases hp
  have hrlt : 2 * i + 2 < (hdr :: flatPairs ps).length := by omega
  have hrows := flatPairs_getD ps i p hp
  have hrow1 : (hdr :: flatPairs ps).getD (2 * i + 1) [] = p.1 := by
    rw [List.getD_cons_succ]
    exact hrows.1
  have hrow2 : (hdr :: flatPairs ps).getD (2 * i + 2) [] = p.2 := by
    rw [List.getD_cons_succ]
    exact hrows.2
  have hl : locked_here (hdr :: flatPairs ps) (2 * i + 2) = false := by
    unfold locked_here
    simp [hunlocked]
  have hinv0 : MergeInv (hdr :: flatPairs ps) (2 * i + 2) (p.1.getD 11 "")
      { index := build_index (hdr :: flatPairs ps),
        append_top := init_append_top (hdr :: flatPairs ps)
          (spacer_for league (hdr :: flatPairs ps)),
        queued := [] } := by
    obtain ⟨hgt, hev⟩ := init_append_top_spec (hdr :: flatPairs ps)
      (spacer_for league (hdr :: flatPairs ps)) (by simp)
    refine ⟨hlookup, ?_, ?_, hgt, hev, by intro q hq; cases hq⟩
    · intro e he hr
      obtain ⟨-, -, -, -, hkey, -⟩ := build_index_mem _ e he
      rw [hr] at hkey
      rw [← hkey]
      show ((hdr :: flatPairs ps).getD (2 * i + 2 - 1) []).getD 11 "" = p.1.getD 11 ""
      rw [show 2 * i + 2 - 1 = 2 * i + 1 from by omega, hrow1]
    · intro e he
      exact (build_index_mem _ e he).1
  obtain ⟨hinvF, hfil⟩ := merge_fold_at_pair league phase now (hdr :: flatPairs ps)
    (2 * i + 2) (p.1.getD 11 "") (by omega) games _ hinv0
  simp only [List.filter_nil] at hfil
  constructor
  · intro hnone
    have hfilnil : (games.filter (fun g => game_key_of g == p.1.getD 11 "" &&
        !locked_here (hdr :: flatPairs ps) (2 * i + 2) &&
        game_allow now league phase g)) = [] := by
      apply List.filter_eq_nil_iff.mpr
      intro g hg
      by_cases hk : game_key_of g = p.1.getD 11 ""
      · rw [hnone g hg hk]
        simp
      · rw [show (game_key_of g == p.1.getD 11 "") = false from by simpa using hk]
        simp
    rw [hfilnil] at hfil
    simp only [List.map_nil] at hfil
    have hnotouch : ∀ q ∈ (merge_loop (hdr :: flatPairs ps) games league phase
        now).queued, q.top % 2 = 0 ∧ q.top ≠ 2 * i + 2 := by
      intro q hq
      refine ⟨hinvF.queuedEven q hq, ?_⟩
      intro hEq
      have hmem : q ∈ (merge_loop (hdr :: flatPairs ps) games league phase
          now).queued.filter (fun q => q.top == 2 * i + 2) := by
        rw [List.mem_filter]
        exact ⟨hq, by simp [hEq]⟩
      rw [show (merge_loop (hdr :: flatPairs ps) games league phase now).queued =
        (games.foldl (process_game league phase now (hdr :: flatPairs ps))
          { index := build_index (hdr :: flatPairs ps),
            append_top := init_append_top (hdr :: flatPairs ps)
              (spacer_for league (hdr :: flatPairs ps)),
            queued := [] }).queued from rfl] at hmem
      rw [hfil] at hmem
      cases hmem
    show ((upsert_lines_strict (hdr :: flatPairs ps)
      (merge_loop (hdr :: flatPairs ps) games league phase now).queued).getD
        (2 * i + 1) [] = p.1) ∧
      ((upsert_lines_strict (hdr :: flatPairs ps)
        (merge_loop (hdr :: flatPairs ps) games league phase now).queued).getD
          (2 * i + 2) [] = p.2)
    rw [upsert_even_tops _ _ (fun q hq => (hnotouch q hq).1)]
    obtain ⟨h1, h2⟩ := apply_writes_untouched (hdr :: flatPairs ps)
      (merge_loop (hdr :: flatPairs ps) games league phase now).queued (2 * i + 2)
      hrlt (by omega) (by omega) hnotouch
    rw [show 2 * i + 2 - 1 = 2 * i + 1 from by omega] at h1
    exact ⟨h1.trans hrow1, h2.trans hrow2⟩
  · intro g huniq hallow
    have hcondsplit : (games.filter (fun g2 => game_key_of g2 == p.1.getD 11 "" &&
        !locked_here (hdr :: flatPairs ps) (2 * i + 2) &&
        game_allow now league phase g2)) = [g] := by
      have hforms : ∀ g2 : Game, (game_key_of g2 == p.1.getD 11 "" &&
          !locked_here (hdr :: flatPairs ps) (2 * i + 2) &&
          game_allow now league phase g2) =
          ((game_key_of g2 == p.1.getD 11 "") &&
            (!locked_here (hdr :: flatPairs ps) (2 * i + 2) &&
              game_allow now league phase g2)) := by
        intro g2
        rw [Bool.and_assoc]
      rw [List.filter_congr (fun g2 _ => hforms g2)]
      rw [filter_and_split games (fun g2 => game_key_of g2 == p.1.getD 11 "")
        (fun g2 => !locked_here (hdr :: flatPairs ps) (2 * i + 2) &&
          game_allow now league phase g2)]
      rw [huniq]
      rw [List.filter_cons_of_pos (by rw [hl, hallow]; rfl), List.filter_nil]
    rw [hcondsplit] at hfil
    simp only [List.map_cons, List.map_nil, List.nil_append] at hfil
    show ((upsert_lines_strict (hdr :: flatPairs ps)
      (merge_loop (hdr :: flatPairs ps) games league phase now).queued).getD
        (2 * i + 1) [] = _) ∧
      ((upsert_lines_strict (hdr :: flatPairs ps)
        (merge_loop (hdr :: flatPairs ps) games league phase now).queued).getD
          (2 * i + 2) [] = _)
    have hqeven : ∀ q ∈ (merge_loop (hdr :: flatPairs ps) games league phase
        now).queued, q.top % 2 = 0 := hinvF.queuedEven
    rw [upsert_even_tops _ _ hqeven]
    obtain ⟨h1, h2⟩ := apply_writes_last_at (hdr :: flatPairs ps)
      (merge_loop (hdr :: flatPairs ps) games league phase now).queued (2 * i + 2)
      (matched_write league phase now (2 * i + 2) g) hrlt (by omega) (by omega)
      hqeven (by
        rw [show (merge_loop (hdr :: flatPairs ps) games league phase now).queued =
          (games.foldl (process_game league phase now (hdr :: flatPairs ps))
            { index := build_index (hdr :: flatPairs ps),
              append_top := init_append_top (hdr :: flatPairs ps)
                (spacer_for league (hdr :: flatPairs ps)),
              queued := [] }).queued from rfl]
        exact hfil)
    rw [show 2 * i + 2 - 1 = 2 * i + 1 from by omega] at h1
    exact ⟨h1, h2⟩

/-- A persisted, UNLOCKED entry (column P is "N") for the same fixture, used
by the C9 theorems. -/
def exPostTop : Row :=
  ["", "Jets", "", "OLD-LINE", "", "O 44", "September 25", "5460", "nfl",
   "0-NFL-Wk0", "regular", "3|JETS|BILLS", "5460", "1441", "2160", "N", "posted", "111"]

/-- The home row of the unlocked witness entry. -/
def exPostBot : Row :=
  ["", "Bills", "", "OLD-LINE2", "", "U 44", "September 25", "5460", "nfl",
   "0-NFL-Wk0", "regular", "3|JETS|BILLS", "5460", "1441", "2160", "N", "posted", "111"]

/-- The packed form of `exScrape`'s single Jets-Bills pair. -/
def exGame0 : Game :=
  { away_row := ["", "Jets", "", "NYJ +3", "", "O 44", "September 25", "5460"],
    home_row := ["", "Bills", "", "BUF -3", "", "U 44", "September 25", "5460"],
    away_team_disp := "Jets", home_team_disp := "Bills",
    date_text := "September 25", time_text := "5460",
    away_line := "NYJ +3", home_line := "BUF -3",
    ou_top := "O 44", ou_bottom := "U 44" }

/-- C9 counterexample: at a Tuesday midnight instant (1440) the publish gate
allows the Thursday kickoff 5460, the matched entry is unlocked, and the
scrape carries different line data — yet the merge leaves the ledger
completely unchanged, because `now` is one minute before the release time
1441.  The claim's "otherwise (gate allows), it overwrites both rows" is
therefore false: the gate being open does not suffice. -/
theorem gate_open_before_release_skips :
    publish_window_allows 1440 (some 5460) = true ∧
    py_upper (getCell [exHeader, exPostTop, exPostBot] 2 16) ≠ "Y" ∧
    game_allow 1440 "nfl" "regular" exGame0 = false ∧
    merge_staging_core [exHeader, exPostTop, exPostBot]
      (pack_pairs_to_games (normalize_rows_to_AH exScrape)) "nfl" "regular" 1440 =
      [exHeader, exPostTop, exPostBot] ∧
    (exScrape.getD 0 []).getD 3 "" ≠ exPostTop.getD 3 "" := by
  refine ⟨rfl, by decide, rfl, rfl, by decide⟩

/-- Witness for the amended C9: at instant 1800 (Tuesday, past the release
1441) the same unlocked entry is overwritten with the scraped pair's fresh
rows and refreshed metadata. -/
theorem unlocked_entry_update_requires_allow_witness :
    (merge_staging_core [exHeader, exPostTop, exPostBot]
      (pack_pairs_to_games (normalize_rows_to_AH exScrape)) "nfl" "regular" 1800).getD
        1 [] = (matched_write "nfl" "regular" 1800 2 exGame0).away ∧
    (merge_staging_core [exHeader, exPostTop, exPostBot]
      (pack_pairs_to_games (normalize_rows_to_AH exScrape)) "nfl" "regular" 1800).getD
        2 [] = (matched_write "nfl" "regular" 1800 2 exGame0).home :=
  (unlocked_entry_update_requires_allow exHeader [(exPostTop, exPostBot)]
    (pack_pairs_to_games (normalize_rows_to_AH exScrape)) "nfl" "regular" 1800 0
    (exPostTop, exPostBot) rfl rfl (by decide)).2 exGame0 (by decide) rfl

/-! ## Claim C10 — both rows of every queued pair write share columns I-R -/

theorem naBlank_length (r : Row) : (naBlank r).length = r.length := by
  simp only [naBlank]
  split_ifs <;> simp

theorem normalize_row_to_AH_length (r : Row) : (normalize_row_to_AH r).length = 8 := by
  simp only [normalize_row_to_AH]
  split_ifs with h1 h2 h3
  · exact h1
  · rfl
  · rfl
  · simp

theorem pack_mem : ∀ (rows : List Row), ∀ g ∈ pack_pairs_to_games rows,
    g.away_row ∈ rows ∧ g.home_row ∈ rows
  | [] => by intro g hg; cases hg
  | [a] => by intro g hg; cases hg
  | a :: b :: rest => by
      intro g hg
      rcases List.mem_cons.mp hg with rfl | hm
      · exact ⟨List.mem_cons_self _ _, List.mem_cons_of_mem _ (List.mem_cons_self _ _)⟩
      · obtain ⟨h1, h2⟩ := pack_mem rest g hm
        exact ⟨List.mem_cons_of_mem _ (List.mem_cons_of_mem _ h1),
          List.mem_cons_of_mem _ (List.mem_cons_of_mem _ h2)⟩

theorem game_meta_length (league phase : String) (now : Nat) (g : Game) :
    (game_meta league phase now g).length = 10 := by
  rfl

theorem queue_pair_range_drop8 (r : Nat) (x y meta : Row)
    (hx : x.length = 8) (hy : y.length = 8) (hm : meta.length = 10) :
    (queue_pair_range r (x ++ meta) (y ++ meta)).away.drop 8 = meta ∧
    (queue_pair_range r (x ++ meta) (y ++ meta)).home.drop 8 = meta := by
  unfold queue_pair_range
  have hxm : (x ++ meta).length = 18 := by simp [hx, hm]
  have hym : (y ++ meta).length = 18 := by simp [hy, hm]
  have htx : ((x ++ meta) ++ List.replicate 18 "").take 18 = x ++ meta :=
    List.take_left' hxm
  have hty : ((y ++ meta) ++ List.replicate 18 "").take 18 = y ++ meta :=
    List.take_left' hym
  constructor
  · show (((x ++ meta) ++ List.replicate 18 "").take 18).drop 8 = meta
    rw [htx, ← hx, List.drop_left]
  · show (((y ++ meta) ++ List.replicate 18 "").take 18).drop 8 = meta
    rw [hty, ← hy, List.drop_left]

theorem fold_queued_drop8 (league phase : String) (now : Nat) (existing : Sheet) :
    ∀ (games : List Game) (st : LoopState),
      (∀ g ∈ games, g.away_row.length = 8 ∧ g.home_row.length = 8) →
      (∀ q ∈ st.queued, q.away.drop 8 = q.home.drop 8) →
      ∀ q ∈ (games.foldl (process_game league phase now existing) st).queued,
        q.away.drop 8 = q.home.drop 8 := by
  intro games
  induction games with
  | nil => intro st _ hst q hq; exact hst q hq
  | cons g gs ih =>
      intro st hlen hst q hq
      have hg := hlen g (List.mem_cons_self _ _)
      have hnew : ∀ p ∈ (process_game league phase now existing st g).queued,
          p.away.drop 8 = p.home.drop 8 := by
        intro p hp
        cases hlook : st.index.lookup (game_key_of g) with
        | none =>
            rw [process_game_eq_insert league phase now existing st g hlook] at hp
            simp only at hp
            rcases List.mem_append.mp hp with hm | hm
            · exact hst p hm
            · rcases List.mem_singleton.mp hm with rfl
              unfold fresh_rows
              by_cases ha : game_allow now league phase g
              · rw [if_pos ha]
                have := queue_pair_range_drop8 st.append_top (naBlank g.away_row)
                  (naBlank g.home_row) (game_meta league phase now g)
                  (by rw [naBlank_length]; exact hg.1)
                  (by rw [naBlank_length]; exact hg.2)
                  (game_meta_length league phase now g)
                rw [this.1, this.2]
              · rw [if_neg ha]
                have := queue_pair_range_drop8 st.append_top
                  ((g.away_row.set 3 "").set 5 "") ((g.home_row.set 3 "").set 5 "")
                  (game_meta league phase now g) (by simp [hg.1]) (by simp [hg.2])
                  (game_meta_length league phase now g)
                rw [this.1, this.2]
        | some r =>
            rw [process_game_eq_matched league phase now existing st g r hlook] at hp
            split_ifs at hp
            · exact hst p hp
            · exact hst p hp
            · simp only at hp
              rcases List.mem_append.mp hp with hm | hm
              · exact hst p hm
              · rcases List.mem_singleton.mp hm with rfl
                unfold matched_write
                have := queue_pair_range_drop8 r (naBlank g.away_row)
                  (naBlank g.home_row) (game_meta league phase now g)
                  (by rw [naBlank_length]; exact hg.1)
                  (by rw [naBlank_length]; exact hg.2)
                  (game_meta_length league phase now g)
                rw [this.1, this.2]
      exact ih _ (fun x hx => hlen x (List.mem_cons_of_mem _ hx)) hnew q hq

/-- C10: every pair write the merge engine queues — insert or update — gives
the away row and the home row identical metadata columns I-R (the cells
after the 8 display columns): both queued rows are the 8-column display row
followed by the same `game_meta` list. -/
theorem pair_writes_share_metadata (existing : Sheet) (staging : List Row)
    (league phase : String) (now : Nat) :
    ∀ q ∈ (merge_loop existing (pack_pairs_to_games (normalize_rows_to_AH staging))
        league phase now).queued,
      q.away.drop 8 = q.home.drop 8 := by
  intro q hq
  refine fold_queued_drop8 league phase now existing
    (pack_pairs_to_games (normalize_rows_to_AH staging)) _ ?_ (by intro p hp; cases hp)
    q hq
  intro g hg
  obtain ⟨h1, h2⟩ := pack_mem _ g hg
  unfold normalize_rows_to_AH at h1 h2
  obtain ⟨r1, -, hr1⟩ := List.mem_map.mp h1
  obtain ⟨r2, -, hr2⟩ := List.mem_map.mp h2
  rw [← hr1, ← hr2]
  exact ⟨normalize_row_to_AH_length r1, normalize_row_to_AH_length r2⟩

/-- Witness for C10: the queued update write of the witness merge run has
equal metadata on both rows. -/
theorem pair_writes_share_metadata_witness :
    (matched_write "nfl" "regular" 1800 2 exGame0).away.drop 8 =
      (matched_write "nfl" "regular" 1800 2 exGame0).home.drop 8 := by
  refine pair_writes_share_metadata [exHeader, exPostTop, exPostBot] exScrape
    "nfl" "regular" 1800 (matched_write "nfl" "regular" 1800 2 exGame0) ?_
  decide

/-! ## Claim C4 — no secondary (week, away, home) match exists -/

/-- A persisted entry for the Jets-Bills fixture first stored with an
unknown kickoff: its key carries the unknown-date sentinel. -/
def exC4top : Row :=
  ["", "Jets", "", "OLD-LINE", "", "O 44", "September 25", "TBD", "nfl",
   "0-NFL-Wk0", "regular", "0000-00-00|JETS|BILLS", "", "", "", "N", "placeholder",
   "111"]

/-- The home row of the sentinel-keyed entry. -/
def exC4bot : Row :=
  ["", "Bills", "", "OLD-LINE2", "", "U 44", "September 25", "TBD", "nfl",
   "0-NFL-Wk0", "regular", "0000-00-00|JETS|BILLS", "", "", "", "N", "placeholder",
   "111"]

/-- C4 counterexample: the ledger holds the Jets-Bills fixture under the
unknown-kickoff key `0000-00-00|JETS|BILLS`; a re-scrape of the same fixture
with a resolved kickoff produces the key `3|JETS|BILLS`, which the engine
does not find — no secondary (week tag, away, home) match is attempted —
so instead of updating the same entry it inserts a second pair: the result
has five rows, the old pair is untouched at rows 2-3, and rows 4-5 hold a
new entry for the same two teams under the new key. -/
theorem no_secondary_match_duplicate_insert :
    (merge_staging_core [exHeader, exC4top, exC4bot]
      (pack_pairs_to_games (normalize_rows_to_AH exScrape)) "nfl" "regular"
        1800).length = 5 ∧
    (merge_staging_core [exHeader, exC4top, exC4bot]
      (pack_pairs_to_games (normalize_rows_to_AH exScrape)) "nfl" "regular"
        1800).getD 1 [] = exC4top ∧
    (merge_staging_core [exHeader, exC4top, exC4bot]
      (pack_pairs_to_games (normalize_rows_to_AH exScrape)) "nfl" "regular"
        1800).getD 2 [] = exC4bot ∧
    getCell (merge_staging_core [exHeader, exC4top, exC4bot]
      (pack_pairs_to_games (normalize_rows_to_AH exScrape)) "nfl" "regular" 1800)
        4 12 = "3|JETS|BILLS" ∧
    getCell (merge_staging_core [exHeader, exC4top, exC4bot]
      (pack_pairs_to_games (normalize_rows_to_AH exScrape)) "nfl" "regular" 1800)
        4 2 = "Jets" ∧
    getCell (merge_staging_core [exHeader, exC4top, exC4bot]
      (pack_pairs_to_games (normalize_rows_to_AH exScrape)) "nfl" "regular" 1800)
        2 2 = "Jets" ∧
    "0000-00-00|JETS|BILLS" ≠ "3|JETS|BILLS" := by
  refine ⟨rfl, rfl, rfl, rfl, rfl, rfl, by decide⟩

/-- C4 (amended): when a scraped pair's primary game key is not found among
the persisted entries' key cells, the merge engine always inserts a brand
new pair at the append cursor (after any spacer), leaving every persisted
row unchanged; no secondary match on (week tag, normalized away, normalized
home) is attempted, so a fixture whose key changes (e.g. its kickoff
becomes known) gets a duplicate entry rather than an update. -/
theorem primary_key_miss_inserts_new_pair (hdr : Row) (ps : List (Row × Row))
    (g : Game) (league phase : String) (now : Nat)
    (hmiss : ∀ e ∈ build_index (hdr :: flatPairs ps), e.1 ≠ game_key_of g) :
    merge_staging_core (hdr :: flatPairs ps) [g] league phase now =
      (hdr :: flatPairs ps) ++
        List.replicate (init_append_top (hdr :: flatPairs ps)
            (spacer_for league (hdr :: flatPairs ps)) - 1 -
          (hdr :: flatPairs ps).length) blankRow ++
        [(queue_pair_range (init_append_top (hdr :: flatPairs ps)
            (spacer_for league (hdr :: flatPairs ps)))
            (fresh_rows league phase now g).1 (fresh_rows league phase now g).2).away,
         (queue_pair_range (init_append_top (hdr :: flatPairs ps)
            (spacer_for league (hdr :: flatPairs ps)))
            (fresh_rows league phase now g).1
            (fresh_rows league phase now g).2).home] := by
  obtain ⟨hgt, hev⟩ := init_append_top_spec (hdr :: flatPairs ps)
    (spacer_for league (hdr :: flatPairs ps)) (by simp)
  have hlook : (build_index (hdr :: flatPairs ps)).lookup (game_key_of g) = none :=
    lookup_eq_none_of_keys_ne hmiss
  show upsert_lines_strict (hdr :: flatPairs ps)
    (merge_loop (hdr :: flatPairs ps) [g] league phase now).queued = _
  rw [show (merge_loop (hdr :: flatPairs ps) [g] league phase now) =
    process_game league phase now (hdr :: flatPairs ps)
      { index := build_index (hdr :: flatPairs ps),
        append_top := init_append_top (hdr :: flatPairs ps)
          (spacer_for league (hdr :: flatPairs ps)),
        queued := [] } g from rfl]
  rw [process_game_eq_insert league phase now (hdr :: flatPairs ps) _ g hlook]
  show upsert_lines_strict (hdr :: flatPairs ps)
    ([] ++ [queue_pair_range (init_append_top (hdr :: flatPairs ps)
      (spacer_for league (hdr :: flatPairs ps)))
      (fresh_rows league phase now g).1 (fresh_rows league phase now g).2]) = _
  rw [List.nil_append]
  rw [upsert_even_tops _ _ (by
    intro q hq
    rcases List.mem_singleton.mp hq with rfl
    exact hev)]
  show setSheetRow (setSheetRow (hdr :: flatPairs ps)
    (init_append_top (hdr :: flatPairs ps) (spacer_for league (hdr :: flatPairs ps)))
    _) (init_append_top (hdr :: flatPairs ps)
      (spacer_for league (hdr :: flatPairs ps)) + 1) _ = _
  have hq1 : setSheetRow (hdr :: flatPairs ps)
      (init_append_top (hdr :: flatPairs ps) (spacer_for league (hdr :: flatPairs ps)))
      (queue_pair_range (init_append_top (hdr :: flatPairs ps)
        (spacer_for league (hdr :: flatPairs ps)))
        (fresh_rows league phase now g).1 (fresh_rows league phase now g).2).away =
      (hdr :: flatPairs ps) ++
        List.replicate (init_append_top (hdr :: flatPairs ps)
            (spacer_for league (hdr :: flatPairs ps)) - 1 -
          (hdr :: flatPairs ps).length) blankRow ++
        [(queue_pair_range (init_append_top (hdr :: flatPairs ps)
            (spacer_for league (hdr :: flatPairs ps)))
            (fresh_rows league phase now g).1
            (fresh_rows league phase now g).2).away] := by
    unfold setSheetRow
    rw [if_neg (by omega), List.append_assoc]
  rw [hq1]
  have hlen1 : ((hdr :: flatPairs ps) ++
      List.replicate (init_append_top (hdr :: flatPairs ps)
          (spacer_for league (hdr :: flatPairs ps)) - 1 -
        (hdr :: flatPairs ps).length) blankRow ++
      [(queue_pair_range (init_append_top (hdr :: flatPairs ps)
          (spacer_for league (hdr :: flatPairs ps)))
          (fresh_rows league phase now g).1
          (fresh_rows league phase now g).2).away]).length =
      init_append_top (hdr :: flatPairs ps)
        (spacer_for league (hdr :: flatPairs ps)) := by
    have h0 : (hdr :: flatPairs ps).length = (flatPairs ps).length + 1 := by simp
    simp [List.length_append, List.length_replicate]
    omega
  unfold setSheetRow
  rw [if_neg (by rw [hlen1]; omega)]
  rw [hlen1]
  rw [show init_append_top (hdr :: flatPairs ps)
      (spacer_for league (hdr :: flatPairs ps)) + 1 - 1 -
    init_append_top (hdr :: flatPairs ps)
      (spacer_for league (hdr :: flatPairs ps)) = 0 from by omega]
  simp

/-- Witness for the amended C4: the sentinel-keyed Jets-Bills ledger plus
the resolved-kickoff scrape inserts a fresh pair after the last row. -/
theorem primary_key_miss_inserts_new_pair_witness :
    merge_staging_core (exHeader :: flatPairs [(exC4top, exC4bot)]) [exGame0]
      "nfl" "regular" 1800 =
      (exHeader :: flatPairs [(exC4top, exC4bot)]) ++
        List.replicate (init_append_top (exHeader :: flatPairs [(exC4top, exC4bot)])
            (spacer_for "nfl" (exHeader :: flatPairs [(exC4top, exC4bot)])) - 1 -
          (exHeader :: flatPairs [(exC4top, exC4bot)]).length) blankRow ++
        [(queue_pair_range (init_append_top (exHeader :: flatPairs
            [(exC4top, exC4bot)]) (spacer_for "nfl" (exHeader :: flatPairs
            [(exC4top, exC4bot)])))
            (fresh_rows "nfl" "regular" 1800 exGame0).1
            (fresh_rows "nfl" "regular" 1800 exGame0).2).away,
         (queue_pair_range (init_append_top (exHeader :: flatPairs
            [(exC4top, exC4bot)]) (spacer_for "nfl" (exHeader :: flatPairs
            [(exC4top, exC4bot)])))
            (fresh_rows "nfl" "regular" 1800 exGame0).1
            (fresh_rows "nfl" "regular" 1800 exGame0).2).home] :=
  primary_key_miss_inserts_new_pair exHeader [(exC4top, exC4bot)] exGame0
    "nfl" "regular" 1800 (by decide)

/-! ## Claim C6 — the full pipeline is idempotent

The key structural facts: (1) every pair the merge loop queues lands at an
even top row strictly below the post-purge data (a matched game key can
never resolve to a pre-existing index row, because index keys read back from
the purge's survivors parse as timestamps while game keys contain `|` and
never parse); so the batch write only appends blank-padding pairs and
written pairs below the survivors; (2) every appended pair's top row is
either all-blank or carries a game key (with a `|`) in its column-12 cell,
so the second run's purge deletes exactly the appended pairs and restores
the first run's post-purge sheet, whence the second run recomputes the
identical batch. -/

theorem purge_bad_of_parse_none (now : Nat) (r : Row)
    (h : parse_kick (r.getD 11 "") = none) : purge_bad_row now r = true := by
  unfold purge_bad_row
  split
  · rfl
  · show (match parse_kick (r.getD (COL_KICK - 1) "") with
      | none => true
      | some k => !(football_week_monday now ≤ k &&
          k < football_week_monday now + 7 * minsPerDay)) = true
    rw [show COL_KICK - 1 = 11 from rfl, h]

theorem purge_ok_parse (now : Nat) (r : Row) (h : purge_bad_row now r = false) :
    parse_kick (r.getD 11 "") ≠ none := by
  intro hn
  rw [purge_bad_of_parse_none now r hn] at h
  cases h

theorem purge_bad_blankRow (now : Nat) : purge_bad_row now blankRow = true :=
  purge_bad_of_parse_none now blankRow (by decide)

theorem ensure_header_row_idem (h : Row) :
    ensure_header_row (ensure_header_row h) = ensure_header_row h := by
  unfold ensure_header_row
  by_cases hc : h.take 18 = HEADER_AH ++ HEADER_IR
  · rw [if_pos hc, if_pos hc]
  · rw [if_neg hc, if_pos (List.take_left' (by decide))]

theorem flatPairs_replicate_blank (n : Nat) :
    flatPairs (List.replicate n (blankRow, blankRow)) = List.replicate (2 * n) blankRow := by
  induction n with
  | zero => rfl
  | succ n ih =>
      rw [List.replicate_succ, show 2 * (n + 1) = 2 * n + 1 + 1 from by omega,
        List.replicate_succ, List.replicate_succ]
      show blankRow :: blankRow :: flatPairs (List.replicate n (blankRow, blankRow)) = _
      rw [ih]

theorem flatPairs_set (ps : List (Row × Row)) :
    ∀ (j : Nat) (a b : Row), j < ps.length →
      ((flatPairs ps).set (2 * j) a).set (2 * j + 1) b = flatPairs (ps.set j (a, b)) := by
  induction ps with
  | nil => intro j a b hj; cases hj
  | cons p ps ih =>
      intro j a b hj
      cases j with
      | zero => rfl
      | succ j =>
          rw [show 2 * (j + 1) = 2 * j + 1 + 1 from by omega]
          show ((p.1 :: p.2 :: flatPairs ps).set (2 * j + 1 + 1) a).set (2 * j + 1 + 1 + 1) b = _
          rw [List.set_cons_succ, List.set_cons_succ, List.set_cons_succ, List.set_cons_succ]
          rw [show 2 * j + 1 = 2 * j + 1 from rfl]
          have hrec := ih j a b (by simpa using Nat.lt_of_succ_lt_succ (by simpa using hj))
          show p.1 :: p.2 :: (((flatPairs ps).set (2 * j) a).set (2 * j + 1) b) = _
          rw [hrec]
          rfl

theorem queued_away_cell11 (r : Nat) (x y meta : Row)
    (hx : x.length = 8) (hm : meta.length = 10) :
    (queue_pair_range r (x ++ meta) y).away.getD 11 "" = meta.getD 3 "" := by
  unfold queue_pair_range
  have hxm : (x ++ meta).length = 18 := by simp [hx, hm]
  show (((x ++ meta) ++ List.replicate 18 "").take 18).getD 11 "" = _
  rw [List.take_left' hxm, List.getD_append_right _ _ _ _ (by omega)]
  rw [hx]

theorem setSheetRow_pair_shape (base : Sheet) (T : List (Row × Row)) (q : Queued)
    (hb : base.length % 2 = 1) (ht : q.top % 2 = 0) (hgt : base.length < q.top) :
    ∃ U : List (Row × Row),
      setSheetRow (setSheetRow (base ++ flatPairs T) q.top q.away) (q.top + 1) q.home =
        base ++ flatPairs U ∧
      ∀ p ∈ U, p ∈ T ∨ p = (q.away, q.home) ∨ p = (blankRow, blankRow) := by
  have hL : (base ++ flatPairs T).length = base.length + 2 * T.length := by
    simp [length_flatPairs]
  by_cases hcase : q.top ≤ (base ++ flatPairs T).length
  · have hcase' : q.top ≤ base.length + 2 * T.length := by rw [hL] at hcase; exact hcase
    have h2j : q.top - 1 - base.length = 2 * ((q.top - 1 - base.length) / 2) := by omega
    set j := (q.top - 1 - base.length) / 2 with hjdef
    have hjT : j < T.length := by omega
    refine ⟨T.set j (q.away, q.home), ?_, ?_⟩
    · have hinner : setSheetRow (base ++ flatPairs T) q.top q.away =
          base ++ (flatPairs T).set (2 * j) q.away := by
        unfold setSheetRow
        rw [if_pos hcase, List.set_append_right _ _ (by omega),
          show q.top - 1 - base.length = 2 * j from h2j]
      have hlen1 : (base ++ (flatPairs T).set (2 * j) q.away).length =
          base.length + 2 * T.length := by
        simp [length_flatPairs]
      rw [hinner]
      unfold setSheetRow
      rw [if_pos (by rw [hlen1]; omega), List.set_append_right _ _ (by omega),
        show q.top + 1 - 1 - base.length = 2 * j + 1 from by omega,
        flatPairs_set T j q.away q.home hjT]
    · intro p hp
      rcases List.mem_or_eq_of_mem_set hp with h1 | h2
      · exact Or.inl h1
      · exact Or.inr (Or.inl h2)
  · have hgt2 : base.length + 2 * T.length < q.top := by rw [hL] at hcase; omega
    have hg2 : 2 * ((q.top - 1 - (base.length + 2 * T.length)) / 2) =
        q.top - 1 - (base.length + 2 * T.length) := by omega
    set m := (q.top - 1 - (base.length + 2 * T.length)) / 2 with hm
    refine ⟨T ++ List.replicate m (blankRow, blankRow) ++ [(q.away, q.home)], ?_, ?_⟩
    · have hinner : setSheetRow (base ++ flatPairs T) q.top q.away =
          (base ++ flatPairs T) ++ List.replicate (2 * m) blankRow ++ [q.away] := by
        unfold setSheetRow
        rw [if_neg hcase, hL, ← hg2]
      have hlen1 : ((base ++ flatPairs T) ++ List.replicate (2 * m) blankRow ++
          [q.away]).length = q.top := by
        simp [length_flatPairs]
        omega
      rw [hinner]
      unfold setSheetRow
      rw [if_neg (by rw [hlen1]; omega), hlen1,
        show q.top + 1 - 1 - q.top = 0 from by omega]
      rw [flatPairs_append, flatPairs_append, flatPairs_replicate_blank]
      simp [flatPairs]
    · intro p hp
      rcases List.mem_append.mp hp with hp1 | hp2
      · rcases List.mem_append.mp hp1 with hp3 | hp4
        · exact Or.inl hp3
        · exact Or.inr (Or.inr (List.eq_of_mem_replicate hp4))
      · exact Or.inr (Or.inl (List.mem_singleton.mp hp2))

theorem apply_writes_shape (base : Sheet) (hb : base.length % 2 = 1) :
    ∀ (qs : List Queued) (T : List (Row × Row)),
      (∀ q ∈ qs, q.top % 2 = 0 ∧ base.length < q.top) →
      ∃ U : List (Row × Row),
        apply_writes (base ++ flatPairs T) qs = base ++ flatPairs U ∧
        ∀ p ∈ U, p ∈ T ∨ (∃ q ∈ qs, p = (q.away, q.home)) ∨ p = (blankRow, blankRow) := by
  intro qs
  induction qs with
  | nil => intro T _; exact ⟨T, rfl, fun p hp => Or.inl hp⟩
  | cons q qs ih =>
      intro T hq
      obtain ⟨hte, htgt⟩ := hq q (List.mem_cons_self _ _)
      obtain ⟨U1, hU1, hU1mem⟩ := setSheetRow_pair_shape base T q hb hte htgt
      have step0 : ∀ (s : Sheet), apply_writes s (q :: qs) =
          apply_writes (setSheetRow (setSheetRow s q.top q.away) (q.top + 1) q.home) qs :=
        fun s => rfl
      obtain ⟨U, hU, hUmem⟩ := ih U1 (fun p hp => hq p (List.mem_cons_of_mem _ hp))
      refine ⟨U, ?_, ?_⟩
      · rw [step0, hU1, hU]
      · intro p hp
        rcases hUmem p hp with h1 | h2 | h3
        · rcases hU1mem p h1 with ha | hpair | hblank
          · exact Or.inl ha
          · exact Or.inr (Or.inl ⟨q, List.mem_cons_self _ _, hpair⟩)
          · exact Or.inr (Or.inr hblank)
        · obtain ⟨w, hw, hpw⟩ := h2
          exact Or.inr (Or.inl ⟨w, List.mem_cons_of_mem _ hw, hpw⟩)
        · exact Or.inr (Or.inr h3)

theorem fresh_rows_away (league phase : String) (now : Nat) (g : Game)
    (hlen : g.away_row.length = 8) :
    ∃ x : Row, x.length = 8 ∧
      (fresh_rows league phase now g).1 = x ++ game_meta league phase now g := by
  unfold fresh_rows
  by_cases ha : game_allow now league phase g
  · rw [if_pos ha]
    exact ⟨naBlank g.away_row, by rw [naBlank_length]; exact hlen, rfl⟩
  · rw [if_neg ha]
    exact ⟨(g.away_row.set 3 "").set 5 "", by simp [hlen], rfl⟩

/-- The loop invariant used for idempotence: every index entry whose key
does not parse as a timestamp was inserted by the loop itself, so it sits at
or beyond the initial append cursor `a₀` on an even row; the cursor stays
even and at or beyond `a₀`; and every queued pair sits on an even top at or
beyond `a₀` with a game key (hence a `|`) in its away row's column-12
cell. -/
structure IdemInv (a₀ : Nat) (st : LoopState) : Prop where
  idxNew : ∀ e ∈ st.index, parse_kick e.1 = none → a₀ ≤ e.2 ∧ e.2 % 2 = 0
  aGe : a₀ ≤ st.append_top
  aEven : st.append_top % 2 = 0
  qProp : ∀ q ∈ st.queued, q.top % 2 = 0 ∧ a₀ ≤ q.top ∧ '|' ∈ (q.away.getD 11 "").data

theorem process_game_idem_inv (league phase : String) (now : Nat) (existing : Sheet)
    (a₀ : Nat) (st : LoopState) (g : Game) (hlen : g.away_row.length = 8)
    (hinv : IdemInv a₀ st) :
    IdemInv a₀ (process_game league phase now existing st g) := by
  cases hlook : st.index.lookup (game_key_of g) with
  | none =>
      rw [process_game_eq_insert league phase now existing st g hlook]
      refine ⟨?_, ?_, ?_, ?_⟩
      · intro e he hpk
        rcases List.mem_cons.mp he with rfl | hm
        · exact ⟨hinv.aGe, hinv.aEven⟩
        · exact hinv.idxNew e hm hpk
      · show a₀ ≤ st.append_top + 2
        have := hinv.aGe
        omega
      · show (st.append_top + 2) % 2 = 0
        have := hinv.aEven
        omega
      · intro p hp
        rcases List.mem_append.mp hp with hm | hm
        · exact hinv.qProp p hm
        · rcases List.mem_singleton.mp hm with rfl
          refine ⟨hinv.aEven, hinv.aGe, ?_⟩
          obtain ⟨x, hx8, hxeq⟩ := fresh_rows_away league phase now g hlen
          rw [hxeq, queued_away_cell11 _ _ _ _ hx8 (game_meta_length league phase now g)]
          exact pipe_mem_make_game_key _ _ _
  | some r =>
      rw [process_game_eq_matched league phase now existing st g r hlook]
      have hr : a₀ ≤ r ∧ r % 2 = 0 :=
        hinv.idxNew _ (lookup_mem hlook)
          (parse_kick_game_key (game_kickoff g) g.away_team_disp g.home_team_disp)
      split_ifs with h1 h2
      · exact hinv
      · exact hinv
      · refine ⟨hinv.idxNew, hinv.aGe, hinv.aEven, ?_⟩
        intro p hp
        rcases List.mem_append.mp hp with hm | hm
        · exact hinv.qProp p hm
        · rcases List.mem_singleton.mp hm with rfl
          refine ⟨hr.2, hr.1, ?_⟩
          unfold matched_write
          rw [queued_away_cell11 _ _ _ _ (by rw [naBlank_length]; exact hlen)
            (game_meta_length league phase now g)]
          exact pipe_mem_make_game_key _ _ _

theorem merge_loop_idem_inv (league phase : String) (now : Nat) (existing : Sheet)
    (a₀ : Nat) :
    ∀ (games : List Game) (st : LoopState),
      (∀ g ∈ games, g.away_row.length = 8) → IdemInv a₀ st →
      IdemInv a₀ (games.foldl (process_game league phase now existing) st) := by
  intro games
  induction games with
  | nil => intro st _ h; exact h
  | cons g gs ih =>
      intro st hlen h
      exact ih _ (fun x hx => hlen x (List.mem_cons_of_mem _ hx))
        (process_game_idem_inv league phase now existing a₀ st g
          (hlen g (List.mem_cons_self _ _)) h)

theorem merge_loop_init_inv (h' : Row) (S : List (Row × Row)) (league : String)
    (hS : ∀ p ∈ S, parse_kick (p.1.getD 11 "") ≠ none) :
    IdemInv (init_append_top (h' :: flatPairs S) (spacer_for league (h' :: flatPairs S)))
      { index := build_index (h' :: flatPairs S),
        append_top :=
          init_append_top (h' :: flatPairs S) (spacer_for league (h' :: flatPairs S)),
        queued := [] } := by
  refine ⟨?_, Nat.le_refl _, (init_append_top_spec _ _ (by simp)).2, ?_⟩
  · intro e he hpk
    exfalso
    obtain ⟨heven, h2, hle, h12, hkey, hne⟩ := build_index_mem _ e he
    have hlen : (h' :: flatPairs S).length = 1 + 2 * S.length := by
      simp [length_flatPairs]
      omega
    rw [hlen] at hle
    have h2j : e.2 - 2 = 2 * ((e.2 - 2) / 2) := by omega
    set j := (e.2 - 2) / 2 with hj
    have hjS : j < S.length := by omega
    obtain ⟨p, hp⟩ : ∃ p, S.get? j = some p := ⟨S.get ⟨j, hjS⟩, List.get?_eq_get hjS⟩
    have hflat := (flatPairs_getD S j p hp).1
    have hrow : (h' :: flatPairs S).getD (e.2 - 1) [] = p.1 := by
      rw [show e.2 - 1 = (e.2 - 2) + 1 from by omega, List.getD_cons_succ, h2j]
      exact hflat
    rw [hrow] at hkey
    rw [← hkey] at hpk
    exact hS p (List.get?_mem hp) hpk
  · intro p hp
    cases hp

/-- The merge core on a post-purge pair sheet only appends: the result is
the untouched survivor pairs followed by new pairs, each either an all-blank
padding pair or a written pair carrying a game key (with its `|`) in the
away row's column-12 cell. -/
theorem merge_core_shape (h' : Row) (S : List (Row × Row)) (games : List Game)
    (league phase : String) (now : Nat)
    (hS : ∀ p ∈ S, parse_kick (p.1.getD 11 "") ≠ none)
    (hlen : ∀ g ∈ games, g.away_row.length = 8) :
    ∃ T : List (Row × Row),
      merge_staging_core (h' :: flatPairs S) games league phase now =
        h' :: flatPairs (S ++ T) ∧
      ∀ p ∈ T, p.1 = blankRow ∨ '|' ∈ (p.1.getD 11 "").data := by
  have hinv : IdemInv
      (init_append_top (h' :: flatPairs S) (spacer_for league (h' :: flatPairs S)))
      (merge_loop (h' :: flatPairs S) games league phase now) := by
    unfold merge_loop
    exact merge_loop_idem_inv league phase now (h' :: flatPairs S) _ games _ hlen
      (merge_loop_init_inv h' S league hS)
  have hElen : (h' :: flatPairs S).length % 2 = 1 := by
    simp [length_flatPairs]
    omega
  have hEgt : (h' :: flatPairs S).length <
      init_append_top (h' :: flatPairs S) (spacer_for league (h' :: flatPairs S)) :=
    (init_append_top_spec _ _ (by simp)).1
  have hq : ∀ q ∈ (merge_loop (h' :: flatPairs S) games league phase now).queued,
      q.top % 2 = 0 ∧ (h' :: flatPairs S).length < q.top := by
    intro q hq0
    obtain ⟨he, hge, -⟩ := hinv.qProp q hq0
    exact ⟨he, lt_of_lt_of_le hEgt hge⟩
  obtain ⟨U, hU, hUmem⟩ := apply_writes_shape (h' :: flatPairs S) hElen
    (merge_loop (h' :: flatPairs S) games league phase now).queued [] hq
  refine ⟨U, ?_, ?_⟩
  · unfold merge_staging_core
    rw [upsert_even_tops _ _ (fun q hq0 => (hinv.qProp q hq0).1)]
    have hE0 : (h' :: flatPairs S) ++ flatPairs [] = h' :: flatPairs S := by
      simp [flatPairs]
    rw [hE0] at hU
    rw [hU, flatPairs_append]
    rfl
  · intro p hp
    rcases hUmem p hp with h0 | hq2 | hblank
    · cases h0
    · obtain ⟨w, hw, rfl⟩ := hq2
      exact Or.inr ((hinv.qProp w hw).2.2)
    · exact Or.inl (by rw [hblank])

/-- `merge_staging_into_lines` written as the composition of its pipeline
stages. -/
theorem merge_staging_into_lines_def (sheet : Sheet) (staging_rows : List Row)
    (league phase : String) (now : Nat) :
    merge_staging_into_lines sheet staging_rows league phase now =
      merge_staging_core
        (purge_lines_to_current_week
          (cleanup_legacy_misaligned_rows (ensure_headers sheet)) now
          (if league = "ncaaf" then phase else PHASE_CFB)
          (if league = "nfl" then phase else PHASE_NFL))
        (pack_pairs_to_games (normalize_rows_to_AH staging_rows)) league phase now := rfl

/-- C6: the merge/upsert pipeline (header fix, legacy cleanup, purge, merge
loop, batched write) is idempotent on pair-structured ledgers: running it a
second time with the identical scraped input and the identical `now` leaves
the ledger exactly as the first run left it — no pair is duplicated, no row
moved or deleted, and no field differs.  (This holds *because of* the purge
bug recorded at C1: the second run's purge deletes every pair the first run
appended — their column-12 key cells never parse — and keeps exactly the
first run's survivors, so the second run recomputes the identical batch.) -/
theorem merge_idempotent (hdr : Row) (ps : List (Row × Row)) (staging : List Row)
    (league phase : String) (now : Nat) :
    merge_staging_into_lines
        (merge_staging_into_lines (hdr :: flatPairs ps) staging league phase now)
        staging league phase now =
      merge_staging_into_lines (hdr :: flatPairs ps) staging league phase now := by
  have hlen8 : ∀ g ∈ pack_pairs_to_games (normalize_rows_to_AH staging),
      g.away_row.length = 8 := by
    intro g hg
    obtain ⟨h1, -⟩ := pack_mem _ g hg
    unfold normalize_rows_to_AH at h1
    obtain ⟨r1, -, hr1⟩ := List.mem_map.mp h1
    rw [← hr1]
    exact normalize_row_to_AH_length r1
  set S := (ps.filter fun p => !cleanup_bad_row p.1).filter
    (fun p => !purge_bad_row now p.1) with hSdef
  have hrun1 : merge_staging_into_lines (hdr :: flatPairs ps) staging league phase now =
      merge_staging_core (ensure_header_row hdr :: flatPairs S)
        (pack_pairs_to_games (normalize_rows_to_AH staging)) league phase now := by
    rw [merge_staging_into_lines_def,
      show ensure_headers (hdr :: flatPairs ps) = ensure_header_row hdr :: flatPairs ps
        from rfl,
      cleanup_pairs_char, purge_pairs_char, ← hSdef]
  have hSpurge : ∀ p ∈ S, purge_bad_row now p.1 = false := by
    intro p hp
    have h := List.of_mem_filter hp
    simpa using h
  have hSclean : ∀ p ∈ S, cleanup_bad_row p.1 = false := by
    intro p hp
    have h := List.of_mem_filter (List.mem_of_mem_filter hp)
    simpa using h
  have hS : ∀ p ∈ S, parse_kick (p.1.getD 11 "") ≠ none :=
    fun p hp => purge_ok_parse now p.1 (hSpurge p hp)
  obtain ⟨T, hL1, hT⟩ := merge_core_shape (ensure_header_row hdr) S
    (pack_pairs_to_games (normalize_rows_to_AH staging)) league phase now hS hlen8
  rw [hrun1, hL1, merge_staging_into_lines_def,
    show ensure_headers (ensure_header_row hdr :: flatPairs (S ++ T)) =
      ensure_header_row (ensure_header_row hdr) :: flatPairs (S ++ T) from rfl,
    ensure_header_row_idem, cleanup_pairs_char, purge_pairs_char,
    List.filter_append, List.filter_append]
  have hSc : S.filter (fun p => !cleanup_bad_row p.1) = S :=
    List.filter_eq_self.mpr (fun p hp => by simp [hSclean p hp])
  have hSp : S.filter (fun p => !purge_bad_row now p.1) = S :=
    List.filter_eq_self.mpr (fun p hp => by simp [hSpurge p hp])
  have hTnil : (T.filter (fun p => !cleanup_bad_row p.1)).filter
      (fun p => !purge_bad_row now p.1) = [] := by
    rw [List.filter_eq_nil_iff]
    intro p hp
    have hpT := List.mem_of_mem_filter hp
    rcases hT p hpT with hblank | hpipe
    · simp [hblank, purge_bad_blankRow now]
    · simp [purge_bad_of_parse_none now p.1 (parse_kick_none_of_pipe hpipe)]
  rw [hSc, hSp, hTnil, List.append_nil]
  exact hL1

end Pick5
